import Mathlib

/-!
# Verification of the Kaleidoscope lexer/parser front end (src/toy.cpp)

Shallow embedding of the lexer, operator-precedence table and
recursive-descent parser of the Kaleidoscope tutorial compiler, together
with proofs of the specification claims about them.

Modelling conventions:
* characters are Lean `Char`; the C stream `getchar()` is a `List Char`
  (end of the list plays the role of `EOF`);
* the lexer look-ahead `static int LastChar` becomes a field
  `lastChar : Option Char`, `none` standing for the value `EOF`;
* the number token carries the raw matched text `NumStr` (the C code stores
  `NumVal = strtod(NumStr)`, a `double`; the parse claims only concern the
  shape of the AST and which literal was read, so the literal text is kept);
* the parser, which pulls tokens one at a time through `getNextToken`,
  is embedded over the stream of tokens the lexer produces, a state holding
  `CurToken`, the not-yet-pulled tokens and the `BinOpPrecedence` map;
* the mutually recursive parse functions are indexed by fuel (`none` meaning
  the fuel ran out); a sufficiency theorem shows a fuel linear in the number
  of remaining tokens always suffices, which yields total wrappers.
-/

set_option maxHeartbeats 1000000

namespace Kaleidoscope

/-! ## Character classification (C `<cctype>`, C locale) -/

/-- C `isspace`: space, tab, newline, vertical tab, form feed, carriage return. -/
def cIsSpace (c : Char) : Bool :=
  c = ' ' || c = '\t' || c = '\n' || c = '\x0b' || c = '\x0c' || c = '\r'

/-- C `isalpha` in the C locale: ASCII letters. -/
def cIsAlpha (c : Char) : Bool :=
  ('a' ≤ c && c ≤ 'z') || ('A' ≤ c && c ≤ 'Z')

/-- C `isdigit`: ASCII digits. -/
def cIsDigit (c : Char) : Bool :=
  '0' ≤ c && c ≤ '9'

/-- C `isalnum` in the C locale: ASCII letters and digits. -/
def cIsAlnum (c : Char) : Bool :=
  cIsAlpha c || cIsDigit c

/-- C `isascii`: character codes 0..127. -/
def cIsAscii (c : Char) : Bool :=
  c.toNat ≤ 127

/-! ## Tokens

`enum Token` of src/toy.cpp. The negative enumerators `token_eof`,
`token_def`, `token_extern`, `token_identifier`, `token_number` become
constructors; "return the character as its ascii value" becomes `Tok.ch`.
`ident` carries `IdentifierStr`, `num` carries the matched number text
(whose `strtod` value is `NumVal`). -/

inductive Tok where
  | eof : Tok
  | kwDef : Tok
  | kwExt : Tok
  | ident : String → Tok
  | num : String → Tok
  | ch : Char → Tok
  deriving DecidableEq, Repr

/-! ## Lexer state and `getToken` -/

/-- The lexer's persistent state: the buffered look-ahead character
(`static int LastChar`, `none` = `EOF`) and the remaining input stream. -/
structure LexState where
  lastChar : Option Char
  input : List Char
  deriving DecidableEq, Repr

/-- Size of the not-yet-consumed part of the character stream,
counting the buffered look-ahead. -/
def lexMu (st : LexState) : Nat :=
  st.input.length + (match st.lastChar with | some _ => 1 | none => 0)

/-- Inner loop of `while (isspace(LastChar)) LastChar = getchar();` once the
buffered character has been consumed: keep pulling while spaces come. -/
def skipSpacesAux : List Char → LexState
  | [] => ⟨none, []⟩
  | d :: rest => if cIsSpace d then skipSpacesAux rest else ⟨some d, rest⟩

/-- `while (isspace(LastChar)) LastChar = getchar();`
(pulling from an exhausted stream sets the look-ahead to `EOF`, of which
`isspace` does not hold, so the loop then stops). -/
def skipSpacesLex : LexState → LexState
  | ⟨none, input⟩ => ⟨none, input⟩
  | ⟨some c, input⟩ => if cIsSpace c then skipSpacesAux input else ⟨some c, input⟩

/-- The shared shape of the identifier and number loops:
append the current character, pull the next one, and keep going while the
predicate holds of the newly pulled character
(`while (p(LastChar = getchar())) Str += LastChar;`). -/
def lexLoop (p : Char → Bool) (acc : String) (c : Char) :
    List Char → String × LexState
  | [] => (acc.push c, ⟨none, []⟩)
  | d :: rest =>
    if p d then lexLoop p (acc.push c) d rest
    else (acc.push c, ⟨some d, rest⟩)

/-- `do { LastChar = getchar(); } while (LastChar != EOF && LastChar != '\n'
&& LastChar != '\r');` -/
def skipComment : List Char → LexState
  | [] => ⟨none, []⟩
  | c :: rest =>
    if c = '\n' ∨ c = '\r' then ⟨some c, rest⟩ else skipComment rest

theorem skipSpacesAux_mu (l : List Char) : lexMu (skipSpacesAux l) ≤ l.length := by
  induction l with
  | nil => simp [skipSpacesAux, lexMu]
  | cons d rest ih =>
    rw [skipSpacesAux]
    by_cases h : cIsSpace d
    · simp only [h, if_true]
      exact le_trans ih (by simp)
    · simp [h, lexMu]

theorem skipSpacesLex_mu (st : LexState) : lexMu (skipSpacesLex st) ≤ lexMu st := by
  obtain ⟨lc, input⟩ := st
  cases lc with
  | none => rw [skipSpacesLex]
  | some c =>
    rw [skipSpacesLex]
    by_cases h : cIsSpace c
    · simp only [h, if_true]
      exact le_trans (skipSpacesAux_mu input) (by simp [lexMu])
    · simp [h]

theorem lexLoop_mu (p : Char → Bool) (acc : String) (c : Char) (l : List Char) :
    lexMu (lexLoop p acc c l).2 ≤ l.length := by
  induction l generalizing acc c with
  | nil => simp [lexLoop, lexMu]
  | cons d rest ih =>
    rw [lexLoop]
    by_cases h : p d
    · simp only [h, if_true]
      exact le_trans (ih (acc.push c) d) (by simp)
    · simp [h, lexMu]

theorem skipComment_mu (l : List Char) : lexMu (skipComment l) ≤ l.length := by
  induction l with
  | nil => simp [skipComment, lexMu]
  | cons c rest ih =>
    rw [skipComment]
    by_cases h : c = '\n' ∨ c = '\r'
    · simp [h, lexMu]
    · simp only [h, if_false]
      exact le_trans ih (by simp)

/-- `static int getToken()` of src/toy.cpp: skip spaces, then recognise an
identifier/keyword, a number, a comment (skipped, then lex again), the end
of input, or a plain character. The only self-recursion — lexing again
after a skipped comment — always consumes input, so it is presented with a
fuel argument; `getToken` below supplies fuel `lexMu st + 1`, which theorem
`getTokenF_fuel` shows is always enough, so the out-of-fuel branch is
unreachable. -/
def getTokenF : Nat → LexState → Tok × LexState
  | 0, st => (Tok.eof, ⟨none, st.input⟩)
  | fuel + 1, st =>
    match skipSpacesLex st with
    | ⟨none, input1⟩ => (Tok.eof, ⟨none, input1⟩)
    | ⟨some c, input1⟩ =>
      if cIsAlpha c then
        let r := lexLoop cIsAlnum "" c input1
        (if r.1 = "def" then Tok.kwDef
         else if r.1 = "extern" then Tok.kwExt
         else Tok.ident r.1, r.2)
      else if cIsDigit c || c = '.' then
        let r := lexLoop (fun d => cIsDigit d || d = '.') "" c input1
        (Tok.num r.1, r.2)
      else if c = '#' then
        match skipComment input1 with
        | ⟨none, rest⟩ => (Tok.eof, ⟨none, rest⟩)
        | ⟨some d, rest⟩ => getTokenF fuel ⟨some d, rest⟩
      else
        match input1 with
        | [] => (Tok.ch c, ⟨none, []⟩)
        | d :: rest => (Tok.ch c, ⟨some d, rest⟩)

/-- `static int getToken()`, with the always-sufficient fuel supplied. -/
def getToken (st : LexState) : Tok × LexState :=
  getTokenF (lexMu st + 1) st

theorem getTokenF_mu (fuel : Nat) : ∀ st : LexState, lexMu st < fuel →
    (lexMu (getTokenF fuel st).2 ≤ lexMu st ∧
      ((getTokenF fuel st).1 ≠ Tok.eof → lexMu (getTokenF fuel st).2 < lexMu st)) ∧
    getTokenF fuel st = getTokenF (lexMu st + 1) st := by
  induction fuel using Nat.strong_induction_on with
  | _ fuel ih =>
    intro st hf
    match fuel, hf with
    | fuel + 1, hf =>
      have hsk₀ : lexMu (skipSpacesLex st) ≤ lexMu st := skipSpacesLex_mu st
      rw [getTokenF]
      conv_rhs => rw [getTokenF]
      rcases hsk : skipSpacesLex st with ⟨lc, input1⟩
      rw [hsk] at hsk₀
      cases lc with
      | none =>
        refine ⟨⟨?_, ?_⟩, rfl⟩
        · simpa [lexMu] using hsk₀
        · intro h; exact absurd rfl h
      | some c =>
        have h1 : input1.length + 1 ≤ lexMu st := by
          simpa [lexMu] using hsk₀
        by_cases ha : cIsAlpha c = true
        · have hll := lexLoop_mu cIsAlnum "" c input1
          refine ⟨⟨?_, fun _ => ?_⟩, ?_⟩
          · simp only [ha, if_true]
            omega
          · simp only [ha, if_true]
            omega
          · simp only [ha, if_true]
        · by_cases hd : (cIsDigit c || c = '.') = true
          · have hll := lexLoop_mu (fun d => cIsDigit d || d = '.') "" c input1
            refine ⟨⟨?_, fun _ => ?_⟩, ?_⟩
            · simp only [ha, hd, Bool.false_eq_true, if_false, if_true]
              omega
            · simp only [ha, hd, Bool.false_eq_true, if_false, if_true]
              omega
            · simp only [ha, hd, Bool.false_eq_true, if_false, if_true]
          · by_cases hh : c = '#'
            · have hcm₀ : lexMu (skipComment input1) ≤ input1.length :=
                skipComment_mu input1
              simp only [ha, hd, Bool.false_eq_true, if_false]
              simp only [if_pos hh]
              rcases hcm : skipComment input1 with ⟨lc2, rest⟩
              rw [hcm] at hcm₀
              cases lc2 with
              | none =>
                refine ⟨⟨?_, ?_⟩, rfl⟩
                · show lexMu (⟨none, rest⟩ : LexState) ≤ lexMu st
                  omega
                · intro h; exact absurd rfl h
              | some d =>
                have hrec : lexMu (⟨some d, rest⟩ : LexState) < lexMu st := by
                  have e1 : lexMu (⟨some d, rest⟩ : LexState) = rest.length + 1 := by
                    simp [lexMu]
                  omega
                have ih1 := ih fuel (Nat.lt_succ_self fuel) ⟨some d, rest⟩ (by omega)
                have ih3 := ih (lexMu st) (by omega) ⟨some d, rest⟩ hrec
                refine ⟨⟨?_, fun _ => ?_⟩, ?_⟩
                · exact le_trans ih1.1.1 (le_of_lt hrec)
                · exact lt_of_le_of_lt ih1.1.1 hrec
                · show getTokenF fuel (⟨some d, rest⟩ : LexState) =
                    getTokenF (lexMu st) (⟨some d, rest⟩ : LexState)
                  rw [ih1.2, ih3.2]
            · simp only [ha, hd, Bool.false_eq_true, if_false]
              simp only [if_neg hh]
              cases input1 with
              | nil =>
                have e1 : lexMu (⟨none, []⟩ : LexState) = 0 := by simp [lexMu]
                refine ⟨⟨?_, fun _ => ?_⟩, trivial⟩
                · show lexMu (⟨none, []⟩ : LexState) ≤ lexMu st
                  omega
                · show lexMu (⟨none, []⟩ : LexState) < lexMu st
                  omega
              | cons d rest =>
                have e1 : lexMu (⟨some d, rest⟩ : LexState) = rest.length + 1 := by
                  simp [lexMu]
                have e2 : (d :: rest).length = rest.length + 1 := by simp
                refine ⟨⟨?_, fun _ => ?_⟩, trivial⟩
                · show lexMu (⟨some d, rest⟩ : LexState) ≤ lexMu st
                  omega
                · show lexMu (⟨some d, rest⟩ : LexState) < lexMu st
                  omega

/-- Pulling a non-`eof` token strictly shrinks the remaining character
stream; the state never grows. -/
theorem getToken_mu (st : LexState) :
    lexMu (getToken st).2 ≤ lexMu st ∧
      ((getToken st).1 ≠ Tok.eof → lexMu (getToken st).2 < lexMu st) :=
  (getTokenF_mu (lexMu st + 1) st (Nat.lt_succ_self _)).1

/-- Whenever `getToken` reports the end of input, the look-ahead slot holds
`EOF` (the end marker was observed, never consumed). -/
theorem getTokenF_eof_lastChar (fuel : Nat) : ∀ st : LexState,
    (getTokenF fuel st).1 = Tok.eof → (getTokenF fuel st).2.lastChar = none := by
  induction fuel with
  | zero => intro st _; rfl
  | succ fuel ih =>
    intro st heof
    rw [getTokenF] at heof ⊢
    rcases hsk : skipSpacesLex st with ⟨lc, input1⟩
    rw [hsk] at heof
    cases lc with
    | none => rfl
    | some c =>
      by_cases ha : cIsAlpha c = true
      · simp only [ha, if_true] at heof ⊢
        split at heof
        · exact Tok.noConfusion heof
        · split at heof
          · exact Tok.noConfusion heof
          · exact Tok.noConfusion heof
      · by_cases hd : (cIsDigit c || c = '.') = true
        · simp only [ha, hd, Bool.false_eq_true, if_false, if_true] at heof ⊢
          exact Tok.noConfusion heof
        · by_cases hh : c = '#'
          · simp only [ha, hd, Bool.false_eq_true, if_false, if_pos hh] at heof ⊢
            rcases hcm : skipComment input1 with ⟨lc2, rest2⟩
            rw [hcm] at heof
            cases lc2 with
            | none => rfl
            | some d => exact ih _ heof
          · simp only [ha, hd, Bool.false_eq_true, if_false, if_neg hh] at heof ⊢
            cases input1 with
            | nil => exact Tok.noConfusion heof
            | cons d rest => exact Tok.noConfusion heof

/-! ## Tokenising a whole input

The REPL pulls tokens one at a time; `tokList` materialises the stream of
tokens `getToken` produces until it reports `eof`, which is how the parser
below consumes the lexer's output. As each non-`eof` token strictly consumes
input (`getToken_mu`), fuel `lexMu st + 1` is enough (`tokListF_fuel`). -/

def tokListF : Nat → LexState → List Tok
  | 0, _ => []
  | fuel + 1, st =>
    match getToken st with
    | (Tok.eof, _) => []
    | (t, st') => t :: tokListF fuel st'

def tokList (st : LexState) : List Tok :=
  tokListF (lexMu st + 1) st

/-- The token stream of a string, lexed from the initial lexer state
(`LastChar` starts as `' '`). -/
def tokenize (s : String) : List Tok :=
  tokList ⟨some ' ', s.data⟩

theorem tokListF_fuel (fuel : Nat) : ∀ st : LexState, lexMu st < fuel →
    tokListF fuel st = tokList st := by
  induction fuel using Nat.strong_induction_on with
  | _ fuel ih =>
    intro st hf
    match fuel, hf with
    | fuel + 1, hf =>
      rw [tokListF, tokList, tokListF]
      rcases hg : getToken st with ⟨t, st'⟩
      cases t with
      | eof => rfl
      | kwDef =>
        have hmu : lexMu st' < lexMu st := by
          have h2 := (getToken_mu st).2 (by rw [hg]; simp)
          rw [hg] at h2
          exact h2
        show Tok.kwDef :: tokListF fuel st' = Tok.kwDef :: tokListF (lexMu st) st'
        rw [ih fuel (Nat.lt_succ_self fuel) st' (by omega),
          ih (lexMu st) (by omega) st' (by omega)]
      | kwExt =>
        have hmu : lexMu st' < lexMu st := by
          have h2 := (getToken_mu st).2 (by rw [hg]; simp)
          rw [hg] at h2
          exact h2
        show Tok.kwExt :: tokListF fuel st' = Tok.kwExt :: tokListF (lexMu st) st'
        rw [ih fuel (Nat.lt_succ_self fuel) st' (by omega),
          ih (lexMu st) (by omega) st' (by omega)]
      | ident s =>
        have hmu : lexMu st' < lexMu st := by
          have h2 := (getToken_mu st).2 (by rw [hg]; simp)
          rw [hg] at h2
          exact h2
        show Tok.ident s :: tokListF fuel st' = Tok.ident s :: tokListF (lexMu st) st'
        rw [ih fuel (Nat.lt_succ_self fuel) st' (by omega),
          ih (lexMu st) (by omega) st' (by omega)]
      | num s =>
        have hmu : lexMu st' < lexMu st := by
          have h2 := (getToken_mu st).2 (by rw [hg]; simp)
          rw [hg] at h2
          exact h2
        show Tok.num s :: tokListF fuel st' = Tok.num s :: tokListF (lexMu st) st'
        rw [ih fuel (Nat.lt_succ_self fuel) st' (by omega),
          ih (lexMu st) (by omega) st' (by omega)]
      | ch c =>
        have hmu : lexMu st' < lexMu st := by
          have h2 := (getToken_mu st).2 (by rw [hg]; simp)
          rw [hg] at h2
          exact h2
        show Tok.ch c :: tokListF fuel st' = Tok.ch c :: tokListF (lexMu st) st'
        rw [ih fuel (Nat.lt_succ_self fuel) st' (by omega),
          ih (lexMu st) (by omega) st' (by omega)]

/-! ## AST

The classes `NumberExprAST`, `VariableExprAST`, `BinaryExprAST`,
`CallExprAST` of src/toy.cpp become one sum type (the virtual hierarchy is
closed: the parser builds exactly these four shapes). `Expr.num` stores the
literal text published by the lexer (its `strtod` value is the C `Val`). -/

inductive Expr where
  | num : String → Expr
  | var : String → Expr
  | binop : Char → Expr → Expr → Expr
  | call : String → List Expr → Expr

/-- `PrototypeAST`: function name and parameter names. -/
structure Prototype where
  name : String
  args : List String
  deriving DecidableEq, Repr

/-- `FunctionAST`: a prototype plus a body expression. -/
structure Func where
  proto : Prototype
  body : Expr

/-! ## Parser state

`CurToken`, the stream of tokens still to be pulled from the lexer, and the
process-wide `static std::map<char, int> BinOpPrecedence` (kept as a list of
entries sorted by key, the shape of a `std::map`). The parser touches the
lexer only through `getNextToken`, so the not-yet-pulled part of the
character stream is represented by the tokens the lexer will produce from
it (`tokList`); pulling past the end keeps yielding `eof`
(theorem `lexer_eof_idempotent`). -/

structure PSt where
  curToken : Tok
  rest : List Tok
  table : List (Char × Int)
  deriving DecidableEq, Repr

/-- `getNextToken()`: pull one token from the lexer into `CurToken`. -/
def getNextToken (st : PSt) : PSt :=
  match st.rest with
  | [] => { st with curToken := Tok.eof }
  | t :: ts => { st with curToken := t, rest := ts }

/-- `std::map::operator[] = v`: insert or update, keeping keys sorted. -/
def mapSet : List (Char × Int) → Char → Int → List (Char × Int)
  | [], c, v => [(c, v)]
  | (k, w) :: rest, c, v =>
    if c = k then (k, v) :: rest
    else if c < k then (c, v) :: (k, w) :: rest
    else (k, w) :: mapSet rest c v

/-- The table built by `main()`:
`BinOpPrecedence['<'] = 10; ['+'] = 20; ['-'] = 20; ['*'] = 40;`. -/
def defaultTable : List (Char × Int) :=
  mapSet (mapSet (mapSet (mapSet [] '<' 10) '+' 20) '-' 20) '*' 40

/-- The precedence a parse decision sees for a character: the table entry
if it is positive, otherwise −1 ("not a binary operator"). This is the
observable content of the Operator Table. -/
def effPrec (m : List (Char × Int)) (c : Char) : Int :=
  match m.lookup c with
  | some v => if v ≤ 0 then -1 else v
  | none => -1

/-- `static int GetTokenPrecedence()`. Note that the C++ subscript
`BinOpPrecedence[CurToken]` on a `std::map` *inserts* a value-initialised
entry (`0`) when the key is absent, so the function returns the new table
as well: querying an unregistered ASCII character adds a zero entry. -/
def GetTokenPrecedence (st : PSt) : Int × PSt :=
  match st.curToken with
  | Tok.ch c =>
    if cIsAscii c then
      match st.table.lookup c with
      | some v => (if v ≤ 0 then -1 else v, st)
      | none => (-1, { st with table := mapSet st.table c 0 })
    else (-1, st)
  | _ => (-1, st)

/-- `int BinOp = CurToken;` stored into `BinaryExprAST.Op` (a `char`).
`ParseBinOpRHS` only reads it after `GetTokenPrecedence() ≥ ExprPrec ≥ 0`,
which forces `CurToken` to be an ASCII character token; the catch-all value
is never produced on those paths. -/
def tokAsOp : Tok → Char
  | Tok.ch c => c
  | _ => Char.ofNat 0

/-- Result of a fuel-indexed parse: `none` = out of fuel, otherwise the
C++ null return (with its `LogError` diagnostic) or the parsed value with
the updated parser state. -/
abbrev PRes (α : Type) := Option (Except String (α × PSt))

/-- `ParseNumberExpr`: build a literal from the published `NumVal` and
consume the number token. -/
def ParseNumberExpr (numVal : String) (st : PSt) : Except String (Expr × PSt) :=
  Except.ok (Expr.num numVal, getNextToken st)

mutual

/-- `ParseExpression`: primary followed by the precedence-climbing loop
starting at minimum precedence 0. -/
def ParseExpression : Nat → PSt → PRes Expr
  | 0, _ => none
  | fuel + 1, st =>
    match ParsePrimary fuel st with
    | none => none
    | some (Except.error e) => some (Except.error e)
    | some (Except.ok (lhs, st1)) => ParseBinOpRHS fuel 0 lhs st1

/-- `ParsePrimary`: dispatch on `CurToken`. -/
def ParsePrimary : Nat → PSt → PRes Expr
  | 0, _ => none
  | fuel + 1, st =>
    match st.curToken with
    | Tok.ident s => ParseIdentifierExpr s fuel st
    | Tok.num s => some (ParseNumberExpr s st)
    | Tok.ch c =>
      if c = '(' then ParseParenExpr fuel st
      else some (Except.error "unknown token when expecting an expression")
    | _ => some (Except.error "unknown token when expecting an expression")

/-- `ParseParenExpr`: eat `'('`, parse an expression, require and eat `')'`;
the inner expression is returned as is. -/
def ParseParenExpr : Nat → PSt → PRes Expr
  | 0, _ => none
  | fuel + 1, st =>
    match ParseExpression fuel (getNextToken st) with
    | none => none
    | some (Except.error e) => some (Except.error e)
    | some (Except.ok (v, st1)) =>
      if st1.curToken = Tok.ch ')' then some (Except.ok (v, getNextToken st1))
      else some (Except.error "expected ')'")

/-- `ParseIdentifierExpr`: the identifier text (the published
`IdentifierStr`) is passed in, the identifier token is consumed; without a
following `'('` this is a variable reference, otherwise a call whose
comma-separated argument list is parsed by the loop `ParseArgsLoop`. -/
def ParseIdentifierExpr : String → Nat → PSt → PRes Expr
  | _, 0, _ => none
  | idName, fuel + 1, st =>
    if (getNextToken st).curToken ≠ Tok.ch '(' then
      some (Except.ok (Expr.var idName, getNextToken st))
    else if (getNextToken (getNextToken st)).curToken = Tok.ch ')' then
      some (Except.ok (Expr.call idName [],
        getNextToken (getNextToken (getNextToken st))))
    else
      match ParseArgsLoop fuel [] (getNextToken (getNextToken st)) with
      | none => none
      | some (Except.error e) => some (Except.error e)
      | some (Except.ok (args, st3)) =>
        some (Except.ok (Expr.call idName args, getNextToken st3))

/-- The `while (true)` argument loop of `ParseIdentifierExpr`: parse an
expression, stop before `')'`, continue after `','`, otherwise fail. -/
def ParseArgsLoop : Nat → List Expr → PSt → PRes (List Expr)
  | 0, _, _ => none
  | fuel + 1, args, st =>
    match ParseExpression fuel st with
    | none => none
    | some (Except.error e) => some (Except.error e)
    | some (Except.ok (arg, st1)) =>
      if st1.curToken = Tok.ch ')' then some (Except.ok (args ++ [arg], st1))
      else if st1.curToken ≠ Tok.ch ',' then
        some (Except.error "expected ')' or ',' in argument list")
      else ParseArgsLoop fuel (args ++ [arg]) (getNextToken st1)

/-- `ParseBinOpRHS`: the precedence-climbing loop. One unfolding per
iteration: stop when the pending operator binds weaker than `ExprPrec`;
otherwise eat the operator, parse the primary right of it, extend it
recursively while the look-ahead operator binds tighter, merge, repeat. -/
def ParseBinOpRHS : Nat → Int → Expr → PSt → PRes Expr
  | 0, _, _, _ => none
  | fuel + 1, exprPrec, lhs, st =>
    if (GetTokenPrecedence st).1 < exprPrec then
      some (Except.ok (lhs, (GetTokenPrecedence st).2))
    else
      match ParsePrimary fuel (getNextToken (GetTokenPrecedence st).2) with
      | none => none
      | some (Except.error e) => some (Except.error e)
      | some (Except.ok (rhs, st2)) =>
        if (GetTokenPrecedence st).1 < (GetTokenPrecedence st2).1 then
          match ParseBinOpRHS fuel ((GetTokenPrecedence st).1 + 1) rhs
              (GetTokenPrecedence st2).2 with
          | none => none
          | some (Except.error e) => some (Except.error e)
          | some (Except.ok (rhs2, st4)) =>
            ParseBinOpRHS fuel exprPrec
              (Expr.binop (tokAsOp (GetTokenPrecedence st).2.curToken)
                lhs rhs2) st4
        else
          ParseBinOpRHS fuel exprPrec
            (Expr.binop (tokAsOp (GetTokenPrecedence st).2.curToken) lhs rhs)
            (GetTokenPrecedence st2).2

end

/-- The `while (getNextToken() == token_identifier)` loop of
`ParsePrototype`, collecting `ArgNames`. Each round consumes one token, so
`ParsePrototype` supplies fuel `st.rest.length + 1`, which never runs out
(`ProtoArgsLoopF_fuel`); the fuel-exhausted branch replays the loop exit. -/
def ProtoArgsLoopF : Nat → List String → PSt → List String × PSt
  | 0, acc, st => (acc, getNextToken st)
  | fuel + 1, acc, st =>
    match (getNextToken st).curToken with
    | Tok.ident s => ProtoArgsLoopF fuel (acc ++ [s]) (getNextToken st)
    | _ => (acc, getNextToken st)

/-- `ParsePrototype`: function name, `'('`, bare identifier parameter
names, `')'`. -/
def ParsePrototype (st : PSt) : Except String (Prototype × PSt) :=
  match st.curToken with
  | Tok.ident fnName =>
    if (getNextToken st).curToken ≠ Tok.ch '(' then
      Except.error "Expected '(' in prototype"
    else if (ProtoArgsLoopF ((getNextToken st).rest.length + 1) []
        (getNextToken st)).2.curToken ≠ Tok.ch ')' then
      Except.error "Expected ')' in prototype"
    else
      Except.ok (⟨fnName, (ProtoArgsLoopF ((getNextToken st).rest.length + 1)
          [] (getNextToken st)).1⟩,
        getNextToken (ProtoArgsLoopF ((getNextToken st).rest.length + 1) []
          (getNextToken st)).2)
  | _ => Except.error "Expected function name in prototype"

/-- `ParseTopLevelExpr`: wrap a bare expression in an anonymous
zero-parameter function named `__anon_expr`. -/
def ParseTopLevelExpr (fuel : Nat) (st : PSt) : PRes Func :=
  match ParseExpression fuel st with
  | none => none
  | some (Except.error e) => some (Except.error e)
  | some (Except.ok (e, st1)) =>
    some (Except.ok (⟨⟨"__anon_expr", []⟩, e⟩, st1))

/-! ## Entry points

The driver primes `CurToken` with one `getNextToken()` before dispatching,
so a parse of a given token stream starts with its first token current.
The fuel bound `4 * muP st + 5` always suffices (`Parse_fuel`), making the
wrappers below total versions of the parse functions. -/

/-- Number of tokens not yet consumed (current token included). -/
def muP (st : PSt) : Nat :=
  st.rest.length + (if st.curToken = Tok.eof then 0 else 1)

/-- Parser state at the start of a parse: first token primed, rest pending. -/
def mkSt (ts : List Tok) (tb : List (Char × Int)) : PSt :=
  match ts with
  | [] => ⟨Tok.eof, [], tb⟩
  | t :: rest => ⟨t, rest, tb⟩

/-- Parser state for a source string: lex it and prime the first token. -/
def parseState (s : String) (tb : List (Char × Int)) : PSt :=
  mkSt (tokenize s) tb

/-- `ParseExpression` with the always-sufficient fuel. -/
def ParseExpressionRun (st : PSt) : Except String (Expr × PSt) :=
  (ParseExpression (4 * muP st + 5) st).getD (Except.error "")

/-- `ParseTopLevelExpr` with the always-sufficient fuel. -/
def ParseTopLevelExprRun (st : PSt) : Except String (Func × PSt) :=
  (ParseTopLevelExpr (4 * muP st + 5) st).getD (Except.error "")

/-! ## Fuel monotonicity

A result obtained with some fuel is preserved by any larger fuel: the fuel
only bounds the recursion depth. -/

theorem Parse_mono (f : Nat) : ∀ f', f ≤ f' → ∀ st : PSt, ∀ q : Int,
    ∀ lhs : Expr, ∀ s : String, ∀ args : List Expr,
    (∀ r, ParseExpression f st = some r → ParseExpression f' st = some r) ∧
    (∀ r, ParsePrimary f st = some r → ParsePrimary f' st = some r) ∧
    (∀ r, ParseParenExpr f st = some r → ParseParenExpr f' st = some r) ∧
    (∀ r, ParseIdentifierExpr s f st = some r →
      ParseIdentifierExpr s f' st = some r) ∧
    (∀ r, ParseArgsLoop f args st = some r → ParseArgsLoop f' args st = some r) ∧
    (∀ r, ParseBinOpRHS f q lhs st = some r → ParseBinOpRHS f' q lhs st = some r) := by
  induction f with
  | zero =>
    intro f' _ st q lhs s args
    refine ⟨?_, ?_, ?_, ?_, ?_, ?_⟩ <;> exact fun r h => Option.noConfusion h
  | succ f ih =>
    intro f' hle st q lhs s args
    match f', hle with
    | f' + 1, hle =>
      have hle' : f ≤ f' := Nat.succ_le_succ_iff.mp hle
      refine ⟨?_, ?_, ?_, ?_, ?_, ?_⟩
      · -- ParseExpression
        intro r h
        rw [ParseExpression] at h ⊢
        cases hP : ParsePrimary f st with
        | none => rw [hP] at h; exact Option.noConfusion h
        | some x =>
          rw [hP] at h
          rw [(ih f' hle' st q lhs s args).2.1 x hP]
          match x, h with
          | Except.error e, h => exact h
          | Except.ok (lhs1, st1), h =>
            exact (ih f' hle' st1 0 lhs1 s args).2.2.2.2.2 r h
      · -- ParsePrimary
        intro r h
        rw [ParsePrimary] at h ⊢
        cases hcur : st.curToken with
        | ident s2 =>
          rw [hcur] at h
          exact (ih f' hle' st q lhs s2 args).2.2.2.1 r h
        | num s2 => rw [hcur] at h; exact h
        | ch c =>
          rw [hcur] at h
          by_cases hc : c = '('
          · subst hc
            replace h : (if ('(' : Char) = '(' then ParseParenExpr f st
              else some (Except.error "unknown token when expecting an expression")) = some r := h
            rw [if_pos rfl] at h
            show (if ('(' : Char) = '(' then ParseParenExpr f' st
              else some (Except.error "unknown token when expecting an expression")) = some r
            rw [if_pos rfl]
            exact (ih f' hle' st q lhs s args).2.2.1 r h
          · replace h : (if c = '(' then ParseParenExpr f st
              else some (Except.error "unknown token when expecting an expression")) = some r := h
            rw [if_neg hc] at h
            show (if c = '(' then ParseParenExpr f' st
              else some (Except.error "unknown token when expecting an expression")) = some r
            rw [if_neg hc]
            exact h
        | eof => rw [hcur] at h; exact h
        | kwDef => rw [hcur] at h; exact h
        | kwExt => rw [hcur] at h; exact h
      · -- ParseParenExpr
        intro r h
        rw [ParseParenExpr] at h ⊢
        cases hE : ParseExpression f (getNextToken st) with
        | none => rw [hE] at h; exact Option.noConfusion h
        | some x =>
          rw [hE] at h
          rw [(ih f' hle' (getNextToken st) q lhs s args).1 x hE]
          exact h
      · -- ParseIdentifierExpr
        intro r h
        rw [ParseIdentifierExpr] at h ⊢
        by_cases h1 : (getNextToken st).curToken ≠ Tok.ch '('
        · rw [if_pos h1] at h ⊢; exact h
        · rw [if_neg h1] at h ⊢
          by_cases h2 : (getNextToken (getNextToken st)).curToken = Tok.ch ')'
          · rw [if_pos h2] at h ⊢; exact h
          · rw [if_neg h2] at h ⊢
            cases hA : ParseArgsLoop f [] (getNextToken (getNextToken st)) with
            | none => rw [hA] at h; exact Option.noConfusion h
            | some x =>
              rw [hA] at h
              rw [(ih f' hle' (getNextToken (getNextToken st)) q lhs s
                []).2.2.2.2.1 x hA]
              exact h
      · -- ParseArgsLoop
        intro r h
        rw [ParseArgsLoop] at h ⊢
        cases hE : ParseExpression f st with
        | none => rw [hE] at h; exact Option.noConfusion h
        | some x =>
          rw [hE] at h
          rw [(ih f' hle' st q lhs s args).1 x hE]
          match x, h with
          | Except.error e, h => exact h
          | Except.ok (arg, st1), h =>
            replace h : (if st1.curToken = Tok.ch ')' then
                some (Except.ok (args ++ [arg], st1))
              else if st1.curToken ≠ Tok.ch ',' then
                some (Except.error "expected ')' or ',' in argument list")
              else ParseArgsLoop f (args ++ [arg]) (getNextToken st1)) =
                some r := h
            show (if st1.curToken = Tok.ch ')' then
                some (Except.ok (args ++ [arg], st1))
              else if st1.curToken ≠ Tok.ch ',' then
                some (Except.error "expected ')' or ',' in argument list")
              else ParseArgsLoop f' (args ++ [arg]) (getNextToken st1)) =
                some r
            by_cases h1 : st1.curToken = Tok.ch ')'
            · rw [if_pos h1] at h ⊢; exact h
            · rw [if_neg h1] at h ⊢
              by_cases h2 : st1.curToken ≠ Tok.ch ','
              · rw [if_pos h2] at h ⊢; exact h
              · rw [if_neg h2] at h ⊢
                exact (ih f' hle' (getNextToken st1) q lhs s
                  (args ++ [arg])).2.2.2.2.1 r h
      · -- ParseBinOpRHS
        intro r h
        rw [ParseBinOpRHS] at h ⊢
        by_cases h1 : (GetTokenPrecedence st).1 < q
        · rw [if_pos h1] at h ⊢; exact h
        · rw [if_neg h1] at h ⊢
          cases hP : ParsePrimary f (getNextToken (GetTokenPrecedence st).2) with
          | none => rw [hP] at h; exact Option.noConfusion h
          | some x =>
            rw [hP] at h
            rw [(ih f' hle' (getNextToken (GetTokenPrecedence st).2) q lhs s
              args).2.1 x hP]
            match x, h with
            | Except.error e, h => exact h
            | Except.ok (rhs, st2), h =>
              replace h : (if (GetTokenPrecedence st).1 <
                  (GetTokenPrecedence st2).1 then
                  match ParseBinOpRHS f ((GetTokenPrecedence st).1 + 1) rhs
                      (GetTokenPrecedence st2).2 with
                  | none => none
                  | some (Except.error e) => some (Except.error e)
                  | some (Except.ok (rhs2, st4)) =>
                    ParseBinOpRHS f q
                      (Expr.binop (tokAsOp (GetTokenPrecedence st).2.curToken)
                        lhs rhs2) st4
                else
                  ParseBinOpRHS f q
                    (Expr.binop (tokAsOp (GetTokenPrecedence st).2.curToken)
                      lhs rhs) (GetTokenPrecedence st2).2) = some r := h
              show (if (GetTokenPrecedence st).1 <
                  (GetTokenPrecedence st2).1 then
                  match ParseBinOpRHS f' ((GetTokenPrecedence st).1 + 1) rhs
                      (GetTokenPrecedence st2).2 with
                  | none => none
                  | some (Except.error e) => some (Except.error e)
                  | some (Except.ok (rhs2, st4)) =>
                    ParseBinOpRHS f' q
                      (Expr.binop (tokAsOp (GetTokenPrecedence st).2.curToken)
                        lhs rhs2) st4
                else
                  ParseBinOpRHS f' q
                    (Expr.binop (tokAsOp (GetTokenPrecedence st).2.curToken)
                      lhs rhs) (GetTokenPrecedence st2).2) = some r
              by_cases h2 : (GetTokenPrecedence st).1 < (GetTokenPrecedence st2).1
              · rw [if_pos h2] at h ⊢
                cases hB : ParseBinOpRHS f ((GetTokenPrecedence st).1 + 1) rhs
                    (GetTokenPrecedence st2).2 with
                | none => rw [hB] at h; exact Option.noConfusion h
                | some y =>
                  rw [hB] at h
                  rw [(ih f' hle' (GetTokenPrecedence st2).2
                    ((GetTokenPrecedence st).1 + 1) rhs s args).2.2.2.2.2 y hB]
                  match y, h with
                  | Except.error e, h => exact h
                  | Except.ok (rhs2, st4), h =>
                    exact (ih f' hle' st4 q
                      (Expr.binop (tokAsOp (GetTokenPrecedence st).2.curToken)
                        lhs rhs2) s args).2.2.2.2.2 r h
              · rw [if_neg h2] at h ⊢
                exact (ih f' hle' (GetTokenPrecedence st2).2 q
                  (Expr.binop (tokAsOp (GetTokenPrecedence st).2.curToken)
                    lhs rhs) s args).2.2.2.2.2 r h

/-! ## The operator table and `GetTokenPrecedence` -/

theorem lookup_mapSet (m : List (Char × Int)) (c x : Char) (v : Int) :
    (mapSet m c v).lookup x = if x = c then some v else m.lookup x := by
  induction m with
  | nil =>
    rw [mapSet]
    by_cases h : x = c
    · simp [h, List.lookup]
    · have hb : (x == c) = false := beq_eq_false_iff_ne.mpr h
      simp [List.lookup, hb, h]
  | cons kw rest ih =>
    obtain ⟨k, w⟩ := kw
    rw [mapSet]
    by_cases h1 : c = k
    · subst h1
      by_cases h : x = c
      · simp [h, List.lookup]
      · have hb : (x == c) = false := beq_eq_false_iff_ne.mpr h
        simp [List.lookup, hb, h]
    · rw [if_neg h1]
      by_cases h2 : c < k
      · rw [if_pos h2]
        by_cases h : x = c
        · simp [h, List.lookup]
        · have hb : (x == c) = false := beq_eq_false_iff_ne.mpr h
          simp [List.lookup, hb, h]
      · rw [if_neg h2]
        by_cases h3 : x = k
        · subst h3
          have hxc : ¬ x = c := fun hh => h1 hh.symm
          have hb : (x == c) = false := beq_eq_false_iff_ne.mpr hxc
          simp [List.lookup, hb, hxc]
        · have hb : (x == k) = false := beq_eq_false_iff_ne.mpr h3
          simp only [List.lookup, hb]
          exact ih

theorem effPrec_mapSet0 (m : List (Char × Int)) (c : Char)
    (hc : m.lookup c = none) :
    ∀ x, effPrec (mapSet m c 0) x = effPrec m x := by
  intro x
  rw [effPrec, effPrec, lookup_mapSet]
  by_cases h : x = c
  · subst h
    rw [if_pos rfl, hc]
    simp
  · rw [if_neg h]

theorem GetTokenPrecedence_curToken (st : PSt) :
    (GetTokenPrecedence st).2.curToken = st.curToken := by
  cases hcur : st.curToken with
  | ch c =>
    by_cases ha : cIsAscii c = true
    · cases hl : st.table.lookup c with
      | some v => by_cases hv : v ≤ 0 <;> simp [GetTokenPrecedence, hcur, ha, hl, hv]
      | none => simp [GetTokenPrecedence, hcur, ha, hl]
    · simp [GetTokenPrecedence, hcur, ha]
  | eof => simp [GetTokenPrecedence, hcur]
  | kwDef => simp [GetTokenPrecedence, hcur]
  | kwExt => simp [GetTokenPrecedence, hcur]
  | ident s => simp [GetTokenPrecedence, hcur]
  | num s => simp [GetTokenPrecedence, hcur]

theorem GetTokenPrecedence_rest (st : PSt) :
    (GetTokenPrecedence st).2.rest = st.rest := by
  cases hcur : st.curToken with
  | ch c =>
    by_cases ha : cIsAscii c = true
    · cases hl : st.table.lookup c with
      | some v => by_cases hv : v ≤ 0 <;> simp [GetTokenPrecedence, hcur, ha, hl, hv]
      | none => simp [GetTokenPrecedence, hcur, ha, hl]
    · simp [GetTokenPrecedence, hcur, ha]
  | eof => simp [GetTokenPrecedence, hcur]
  | kwDef => simp [GetTokenPrecedence, hcur]
  | kwExt => simp [GetTokenPrecedence, hcur]
  | ident s => simp [GetTokenPrecedence, hcur]
  | num s => simp [GetTokenPrecedence, hcur]

theorem GetTokenPrecedence_muP (st : PSt) :
    muP (GetTokenPrecedence st).2 = muP st := by
  rw [muP, muP, GetTokenPrecedence_curToken, GetTokenPrecedence_rest]

theorem GetTokenPrecedence_effPrec (st : PSt) :
    ∀ x, effPrec (GetTokenPrecedence st).2.table x = effPrec st.table x := by
  intro x
  cases hcur : st.curToken with
  | ch c =>
    by_cases ha : cIsAscii c = true
    · cases hl : st.table.lookup c with
      | some v => by_cases hv : v ≤ 0 <;> simp [GetTokenPrecedence, hcur, ha, hl, hv]
      | none =>
        simp only [GetTokenPrecedence, hcur, ha, if_true, hl]
        exact effPrec_mapSet0 st.table c hl x
    · simp [GetTokenPrecedence, hcur, ha]
  | eof => simp [GetTokenPrecedence, hcur]
  | kwDef => simp [GetTokenPrecedence, hcur]
  | kwExt => simp [GetTokenPrecedence, hcur]
  | ident s => simp [GetTokenPrecedence, hcur]
  | num s => simp [GetTokenPrecedence, hcur]

/-- Either the current token is no binary operator (result −1), or it is a
character token whose effective table precedence is the (positive) result,
and then the query leaves the whole state unchanged. -/
theorem GetTokenPrecedence_spec (st : PSt) :
    (GetTokenPrecedence st).1 = -1 ∨
      (1 ≤ (GetTokenPrecedence st).1 ∧ ∃ c, st.curToken = Tok.ch c ∧
        effPrec st.table c = (GetTokenPrecedence st).1 ∧
        (GetTokenPrecedence st).2 = st) := by
  cases hcur : st.curToken with
  | ch c =>
    by_cases ha : cIsAscii c = true
    · cases hl : st.table.lookup c with
      | some v =>
        by_cases hv : v ≤ 0
        · left; simp [GetTokenPrecedence, hcur, ha, hl, hv]
        · right
          have hval : (GetTokenPrecedence st).1 = v := by
            simp [GetTokenPrecedence, hcur, ha, hl, hv]
          have hst : (GetTokenPrecedence st).2 = st := by
            simp [GetTokenPrecedence, hcur, ha, hl, hv]
          refine ⟨by omega, c, rfl, ?_, hst⟩
          rw [effPrec, hl, hval]
          simp [hv]
      | none => left; simp [GetTokenPrecedence, hcur, ha, hl]
    · left; simp [GetTokenPrecedence, hcur, ha]
  | eof => left; simp [GetTokenPrecedence, hcur]
  | kwDef => left; simp [GetTokenPrecedence, hcur]
  | kwExt => left; simp [GetTokenPrecedence, hcur]
  | ident s => left; simp [GetTokenPrecedence, hcur]
  | num s => left; simp [GetTokenPrecedence, hcur]

/-! ## Token consumption -/

theorem muP_getNextToken_le (st : PSt) : muP (getNextToken st) ≤ muP st := by
  rw [getNextToken]
  cases hr : st.rest with
  | nil => simp [muP, hr]
  | cons t ts =>
    simp only [muP, hr, List.length_cons]
    split <;> split <;> omega

theorem muP_getNextToken_lt (st : PSt) (h : st.curToken ≠ Tok.eof) :
    muP (getNextToken st) < muP st := by
  rw [getNextToken]
  cases hr : st.rest with
  | nil => simp [muP, hr, h]
  | cons t ts =>
    simp only [muP, hr, List.length_cons, h, if_neg]
    split <;> simp [h] <;> omega

/-- Successful parses consume tokens: an expression or primary eats at
least one token, the loops never give tokens back. -/
theorem Parse_consume (f : Nat) : ∀ st : PSt, ∀ q : Int, ∀ lhs : Expr,
    ∀ s : String, ∀ args : List Expr,
    (∀ v st', ParseExpression f st = some (Except.ok (v, st')) →
      muP st' < muP st) ∧
    (∀ v st', ParsePrimary f st = some (Except.ok (v, st')) →
      muP st' < muP st) ∧
    (∀ v st', ParseParenExpr f st = some (Except.ok (v, st')) →
      muP st' < muP st) ∧
    (∀ v st', ParseIdentifierExpr s f st = some (Except.ok (v, st')) →
      muP st' ≤ muP st ∧ (st.curToken ≠ Tok.eof → muP st' < muP st)) ∧
    (∀ v st', ParseArgsLoop f args st = some (Except.ok (v, st')) →
      muP st' ≤ muP st) ∧
    (∀ v st', ParseBinOpRHS f q lhs st = some (Except.ok (v, st')) →
      muP st' ≤ muP st) := by
  induction f with
  | zero =>
    intro st q lhs s args
    refine ⟨?_, ?_, ?_, ?_, ?_, ?_⟩ <;> exact fun v st' h => Option.noConfusion h
  | succ f ih =>
    intro st q lhs s args
    refine ⟨?_, ?_, ?_, ?_, ?_, ?_⟩
    · -- ParseExpression
      intro v st' h
      rw [ParseExpression] at h
      cases hP : ParsePrimary f st with
      | none => rw [hP] at h; exact Option.noConfusion h
      | some x =>
        rw [hP] at h
        match x, hP, h with
        | Except.error e, hP, h => exact Except.noConfusion (Option.some.inj h)
        | Except.ok (lhs1, st1), hP, h =>
          have h1 := (ih st q lhs s args).2.1 lhs1 st1 hP
          have h2 := (ih st1 0 lhs1 s args).2.2.2.2.2 v st' h
          omega
    · -- ParsePrimary
      intro v st' h
      rw [ParsePrimary] at h
      cases hcur : st.curToken with
      | ident s2 =>
        rw [hcur] at h
        replace h : ParseIdentifierExpr s2 f st = some (Except.ok (v, st')) := h
        exact ((ih st q lhs s2 args).2.2.2.1 v st' h).2 (by simp [hcur])
      | num s2 =>
        rw [hcur] at h
        replace h : (Except.ok (Expr.num s2, getNextToken st) :
            Except String (Expr × PSt)) = Except.ok (v, st') :=
          Option.some.inj h
        obtain ⟨h1, h2⟩ := Prod.mk.inj (Except.ok.inj h)
        subst h2
        exact muP_getNextToken_lt st (by simp [hcur])
      | ch c =>
        rw [hcur] at h
        by_cases hc : c = '('
        · subst hc
          replace h : ParseParenExpr f st = some (Except.ok (v, st')) := by
            replace h : (if ('(' : Char) = '(' then ParseParenExpr f st
              else some (Except.error
                "unknown token when expecting an expression")) =
                some (Except.ok (v, st')) := h
            rw [if_pos rfl] at h
            exact h
          exact (ih st q lhs s args).2.2.1 v st' h
        · replace h : (if c = '(' then ParseParenExpr f st
            else some (Except.error
              "unknown token when expecting an expression")) =
              some (Except.ok (v, st')) := h
          rw [if_neg hc] at h
          exact Except.noConfusion (Option.some.inj h)
      | eof => rw [hcur] at h; exact Except.noConfusion (Option.some.inj h)
      | kwDef => rw [hcur] at h; exact Except.noConfusion (Option.some.inj h)
      | kwExt => rw [hcur] at h; exact Except.noConfusion (Option.some.inj h)
    · -- ParseParenExpr
      intro v st' h
      rw [ParseParenExpr] at h
      cases hE : ParseExpression f (getNextToken st) with
      | none => rw [hE] at h; exact Option.noConfusion h
      | some x =>
        rw [hE] at h
        match x, hE, h with
        | Except.error e, hE, h => exact Except.noConfusion (Option.some.inj h)
        | Except.ok (v1, st1), hE, h =>
          replace h : (if st1.curToken = Tok.ch ')' then
              some (Except.ok (v1, getNextToken st1))
            else some (Except.error "expected ')'")) =
              some (Except.ok (v, st')) := h
          by_cases h1 : st1.curToken = Tok.ch ')'
          · rw [if_pos h1] at h
            obtain ⟨h2, h3⟩ := Prod.mk.inj (Except.ok.inj (Option.some.inj h))
            subst h3
            have h4 := (ih (getNextToken st) 0 lhs s args).1 v1 st1 hE
            have h5 := muP_getNextToken_lt st1 (by simp [h1])
            have h6 := muP_getNextToken_le st
            omega
          · rw [if_neg h1] at h
            exact Except.noConfusion (Option.some.inj h)
    · -- ParseIdentifierExpr
      intro v st' h
      rw [ParseIdentifierExpr] at h
      by_cases h1 : (getNextToken st).curToken ≠ Tok.ch '('
      · rw [if_pos h1] at h
        obtain ⟨h2, h3⟩ := Prod.mk.inj (Except.ok.inj (Option.some.inj h))
        subst h3
        exact ⟨muP_getNextToken_le st, fun hne => muP_getNextToken_lt st hne⟩
      · rw [if_neg h1] at h
        replace h1 : (getNextToken st).curToken = Tok.ch '(' := by
          by_contra hcon
          exact h1 hcon
        have hlt2 : muP (getNextToken (getNextToken st)) <
            muP (getNextToken st) :=
          muP_getNextToken_lt (getNextToken st) (by simp [h1])
        have hle1 : muP (getNextToken st) ≤ muP st := muP_getNextToken_le st
        by_cases h2 : (getNextToken (getNextToken st)).curToken = Tok.ch ')'
        · rw [if_pos h2] at h
          obtain ⟨h3, h4⟩ := Prod.mk.inj (Except.ok.inj (Option.some.inj h))
          subst h4
          have h5 := muP_getNextToken_le (getNextToken (getNextToken st))
          constructor
          · omega
          · intro _; omega
        · rw [if_neg h2] at h
          cases hA : ParseArgsLoop f [] (getNextToken (getNextToken st)) with
          | none => rw [hA] at h; exact Option.noConfusion h
          | some x =>
            rw [hA] at h
            match x, hA, h with
            | Except.error e, hA, h =>
              exact Except.noConfusion (Option.some.inj h)
            | Except.ok (args1, st3), hA, h =>
              obtain ⟨h3, h4⟩ :=
                Prod.mk.inj (Except.ok.inj (Option.some.inj h))
              subst h4
              have h5 := (ih (getNextToken (getNextToken st)) q lhs s
                []).2.2.2.2.1 args1 st3 hA
              have h6 := muP_getNextToken_le st3
              constructor
              · omega
              · intro _; omega
    · -- ParseArgsLoop
      intro v st' h
      rw [ParseArgsLoop] at h
      cases hE : ParseExpression f st with
      | none => rw [hE] at h; exact Option.noConfusion h
      | some x =>
        rw [hE] at h
        match x, hE, h with
        | Except.error e, hE, h => exact Except.noConfusion (Option.some.inj h)
        | Except.ok (arg, st1), hE, h =>
          have h0 := (ih st 0 lhs s args).1 arg st1 hE
          replace h : (if st1.curToken = Tok.ch ')' then
              some (Except.ok (args ++ [arg], st1))
            else if st1.curToken ≠ Tok.ch ',' then
              some (Except.error "expected ')' or ',' in argument list")
            else ParseArgsLoop f (args ++ [arg]) (getNextToken st1)) =
              some (Except.ok (v, st')) := h
          by_cases h1 : st1.curToken = Tok.ch ')'
          · rw [if_pos h1] at h
            obtain ⟨h2, h3⟩ := Prod.mk.inj (Except.ok.inj (Option.some.inj h))
            subst h3
            omega
          · rw [if_neg h1] at h
            by_cases h2 : st1.curToken ≠ Tok.ch ','
            · rw [if_pos h2] at h
              exact Except.noConfusion (Option.some.inj h)
            · rw [if_neg h2] at h
              have h3 := (ih (getNextToken st1) q lhs s
                (args ++ [arg])).2.2.2.2.1 v st' h
              have h4 := muP_getNextToken_le st1
              omega
    · -- ParseBinOpRHS
      intro v st' h
      rw [ParseBinOpRHS] at h
      by_cases h1 : (GetTokenPrecedence st).1 < q
      · rw [if_pos h1] at h
        obtain ⟨h2, h3⟩ := Prod.mk.inj (Except.ok.inj (Option.some.inj h))
        subst h3
        exact le_of_eq (GetTokenPrecedence_muP st)
      · rw [if_neg h1] at h
        have e0 : muP (GetTokenPrecedence st).2 = muP st :=
          GetTokenPrecedence_muP st
        have e1 : muP (getNextToken (GetTokenPrecedence st).2) ≤ muP st := by
          have := muP_getNextToken_le (GetTokenPrecedence st).2
          omega
        cases hP : ParsePrimary f (getNextToken (GetTokenPrecedence st).2) with
        | none => rw [hP] at h; exact Option.noConfusion h
        | some x =>
          rw [hP] at h
          match x, hP, h with
          | Except.error e, hP, h => exact Except.noConfusion (Option.some.inj h)
          | Except.ok (rhs, st2), hP, h =>
            have h2 := (ih (getNextToken (GetTokenPrecedence st).2) q lhs s
              args).2.1 rhs st2 hP
            have e2 : muP (GetTokenPrecedence st2).2 = muP st2 :=
              GetTokenPrecedence_muP st2
            replace h : (if (GetTokenPrecedence st).1 <
                (GetTokenPrecedence st2).1 then
                match ParseBinOpRHS f ((GetTokenPrecedence st).1 + 1) rhs
                    (GetTokenPrecedence st2).2 with
                | none => none
                | some (Except.error e) => some (Except.error e)
                | some (Except.ok (rhs2, st4)) =>
                  ParseBinOpRHS f q
                    (Expr.binop (tokAsOp (GetTokenPrecedence st).2.curToken)
                      lhs rhs2) st4
              else
                ParseBinOpRHS f q
                  (Expr.binop (tokAsOp (GetTokenPrecedence st).2.curToken)
                    lhs rhs) (GetTokenPrecedence st2).2) =
                some (Except.ok (v, st')) := h
            by_cases h3 : (GetTokenPrecedence st).1 < (GetTokenPrecedence st2).1
            · rw [if_pos h3] at h
              cases hB : ParseBinOpRHS f ((GetTokenPrecedence st).1 + 1) rhs
                  (GetTokenPrecedence st2).2 with
              | none => rw [hB] at h; exact Option.noConfusion h
              | some y =>
                rw [hB] at h
                match y, hB, h with
                | Except.error e, hB, h =>
                  exact Except.noConfusion (Option.some.inj h)
                | Except.ok (rhs2, st4), hB, h =>
                  have h4 := (ih (GetTokenPrecedence st2).2
                    ((GetTokenPrecedence st).1 + 1) rhs s args).2.2.2.2.2
                    rhs2 st4 hB
                  have h5 := (ih st4 q
                    (Expr.binop (tokAsOp (GetTokenPrecedence st).2.curToken)
                      lhs rhs2) s args).2.2.2.2.2 v st' h
                  omega
            · rw [if_neg h3] at h
              have h4 := (ih (GetTokenPrecedence st2).2 q
                (Expr.binop (tokAsOp (GetTokenPrecedence st).2.curToken)
                  lhs rhs) s args).2.2.2.2.2 v st' h
              omega

/-- Fuel sufficiency: a fuel linear in the number of pending tokens is
always enough — no parse runs forever, each loop round and recursion step
consumes input. -/
theorem Parse_fuel (f : Nat) : ∀ st : PSt, ∀ q : Int, ∀ lhs : Expr,
    ∀ s : String, ∀ args : List Expr,
    (4 * muP st + 4 ≤ f → (ParseExpression f st).isSome = true) ∧
    (4 * muP st + 3 ≤ f → (ParsePrimary f st).isSome = true) ∧
    (st.curToken = Tok.ch '(' → 4 * muP st + 2 ≤ f →
      (ParseParenExpr f st).isSome = true) ∧
    (4 * muP st + 2 ≤ f → (ParseIdentifierExpr s f st).isSome = true) ∧
    (4 * muP st + 5 ≤ f → (ParseArgsLoop f args st).isSome = true) ∧
    (0 ≤ q → 4 * muP st + 1 ≤ f → (ParseBinOpRHS f q lhs st).isSome = true) := by
  induction f with
  | zero =>
    intro st q lhs s args
    refine ⟨fun hf => absurd hf (by omega), fun hf => absurd hf (by omega),
      fun _ hf => absurd hf (by omega), fun hf => absurd hf (by omega),
      fun hf => absurd hf (by omega), fun _ hf => absurd hf (by omega)⟩
  | succ f ih =>
    intro st q lhs s args
    refine ⟨?_, ?_, ?_, ?_, ?_, ?_⟩
    · -- ParseExpression
      intro hf
      rw [ParseExpression]
      have hP := (ih st q lhs s args).2.1 (by omega)
      cases hPr : ParsePrimary f st with
      | none => rw [hPr] at hP; exact absurd hP (by simp)
      | some x =>
        match x, hPr with
        | Except.error e, hPr => rfl
        | Except.ok (lhs1, st1), hPr =>
          have hc := (Parse_consume f st q lhs s args).2.1 lhs1 st1 hPr
          exact (ih st1 0 lhs1 s args).2.2.2.2.2 (by norm_num) (by omega)
    · -- ParsePrimary
      intro hf
      rw [ParsePrimary]
      cases hcur : st.curToken with
      | ident s2 => exact (ih st q lhs s2 args).2.2.2.1 (by omega)
      | num s2 => rfl
      | ch c =>
        by_cases hc : c = '('
        · subst hc
          show (if ('(' : Char) = '(' then ParseParenExpr f st
            else some (Except.error
              "unknown token when expecting an expression")).isSome = true
          rw [if_pos rfl]
          exact (ih st q lhs s args).2.2.1 hcur (by omega)
        · show (if c = '(' then ParseParenExpr f st
            else some (Except.error
              "unknown token when expecting an expression")).isSome = true
          rw [if_neg hc]
          rfl
      | eof => rfl
      | kwDef => rfl
      | kwExt => rfl
    · -- ParseParenExpr
      intro hpar hf
      rw [ParseParenExpr]
      have h1 : muP (getNextToken st) < muP st :=
        muP_getNextToken_lt st (by simp [hpar])
      have hE := (ih (getNextToken st) q lhs s args).1 (by omega)
      cases hEr : ParseExpression f (getNextToken st) with
      | none => rw [hEr] at hE; exact absurd hE (by simp)
      | some x =>
        match x, hEr with
        | Except.error e, hEr => rfl
        | Except.ok (v1, st1), hEr =>
          show (if st1.curToken = Tok.ch ')' then
              some (Except.ok (v1, getNextToken st1))
            else some (Except.error "expected ')'")).isSome = true
          by_cases h2 : st1.curToken = Tok.ch ')'
          · rw [if_pos h2]; rfl
          · rw [if_neg h2]; rfl
    · -- ParseIdentifierExpr
      intro hf
      rw [ParseIdentifierExpr]
      by_cases h1 : (getNextToken st).curToken ≠ Tok.ch '('
      · rw [if_pos h1]; rfl
      · rw [if_neg h1]
        replace h1 : (getNextToken st).curToken = Tok.ch '(' := by
          by_contra hcon
          exact h1 hcon
        have hlt2 : muP (getNextToken (getNextToken st)) <
            muP (getNextToken st) :=
          muP_getNextToken_lt (getNextToken st) (by simp [h1])
        have hle1 : muP (getNextToken st) ≤ muP st := muP_getNextToken_le st
        by_cases h2 : (getNextToken (getNextToken st)).curToken = Tok.ch ')'
        · rw [if_pos h2]; rfl
        · rw [if_neg h2]
          have hA := (ih (getNextToken (getNextToken st)) q lhs s
            []).2.2.2.2.1 (by omega)
          cases hAr : ParseArgsLoop f [] (getNextToken (getNextToken st)) with
          | none => rw [hAr] at hA; exact absurd hA (by simp)
          | some x =>
            match x, hAr with
            | Except.error e, hAr => rfl
            | Except.ok (args1, st3), hAr => rfl
    · -- ParseArgsLoop
      intro hf
      rw [ParseArgsLoop]
      have hE := (ih st q lhs s args).1 (by omega)
      cases hEr : ParseExpression f st with
      | none => rw [hEr] at hE; exact absurd hE (by simp)
      | some x =>
        match x, hEr with
        | Except.error e, hEr => rfl
        | Except.ok (arg, st1), hEr =>
          have hc := (Parse_consume f st q lhs s args).1 arg st1 hEr
          show (if st1.curToken = Tok.ch ')' then
              some (Except.ok (args ++ [arg], st1))
            else if st1.curToken ≠ Tok.ch ',' then
              some (Except.error "expected ')' or ',' in argument list")
            else ParseArgsLoop f (args ++ [arg])
              (getNextToken st1)).isSome = true
          by_cases h1 : st1.curToken = Tok.ch ')'
          · rw [if_pos h1]; rfl
          · rw [if_neg h1]
            by_cases h2 : st1.curToken ≠ Tok.ch ','
            · rw [if_pos h2]; rfl
            · rw [if_neg h2]
              have h3 : muP (getNextToken st1) < muP st1 := by
                replace h2 : st1.curToken = Tok.ch ',' := by
                  by_contra hcon
                  exact h2 hcon
                exact muP_getNextToken_lt st1 (by simp [h2])
              exact (ih (getNextToken st1) q lhs s
                (args ++ [arg])).2.2.2.2.1 (by omega)
    · -- ParseBinOpRHS
      intro hq hf
      rw [ParseBinOpRHS]
      by_cases h1 : (GetTokenPrecedence st).1 < q
      · rw [if_pos h1]; rfl
      · rw [if_neg h1]
        rcases GetTokenPrecedence_spec st with hneg | ⟨hpos, c, hcur, _, hid⟩
        · exact absurd hneg (by omega)
        · have e0 : muP (GetTokenPrecedence st).2 = muP st :=
            GetTokenPrecedence_muP st
          have h2 : muP (getNextToken (GetTokenPrecedence st).2) <
              muP st := by
            have := muP_getNextToken_lt (GetTokenPrecedence st).2
              (by rw [GetTokenPrecedence_curToken, hcur]; simp)
            omega
          have hP := (ih (getNextToken (GetTokenPrecedence st).2) q lhs s
            args).2.1 (by omega)
          cases hPr : ParsePrimary f (getNextToken (GetTokenPrecedence st).2) with
          | none => rw [hPr] at hP; exact absurd hP (by simp)
          | some x =>
            match x, hPr with
            | Except.error e, hPr => rfl
            | Except.ok (rhs, st2), hPr =>
              have hc := (Parse_consume f
                (getNextToken (GetTokenPrecedence st).2) q lhs s args).2.1
                rhs st2 hPr
              have e2 : muP (GetTokenPrecedence st2).2 = muP st2 :=
                GetTokenPrecedence_muP st2
              show (if (GetTokenPrecedence st).1 <
                  (GetTokenPrecedence st2).1 then
                  match ParseBinOpRHS f ((GetTokenPrecedence st).1 + 1) rhs
                      (GetTokenPrecedence st2).2 with
                  | none => none
                  | some (Except.error e) => some (Except.error e)
                  | some (Except.ok (rhs2, st4)) =>
                    ParseBinOpRHS f q
                      (Expr.binop (tokAsOp (GetTokenPrecedence st).2.curToken)
                        lhs rhs2) st4
                else
                  ParseBinOpRHS f q
                    (Expr.binop (tokAsOp (GetTokenPrecedence st).2.curToken)
                      lhs rhs) (GetTokenPrecedence st2).2).isSome = true
              by_cases h3 : (GetTokenPrecedence st).1 < (GetTokenPrecedence st2).1
              · rw [if_pos h3]
                have hB := (ih (GetTokenPrecedence st2).2
                  ((GetTokenPrecedence st).1 + 1) rhs s args).2.2.2.2.2
                  (by omega) (by omega)
                cases hBr : ParseBinOpRHS f ((GetTokenPrecedence st).1 + 1) rhs
                    (GetTokenPrecedence st2).2 with
                | none => rw [hBr] at hB; exact absurd hB (by simp)
                | some y =>
                  match y, hBr with
                  | Except.error e, hBr => rfl
                  | Except.ok (rhs2, st4), hBr =>
                    have h4 := (Parse_consume f (GetTokenPrecedence st2).2
                      ((GetTokenPrecedence st).1 + 1) rhs s args).2.2.2.2.2
                      rhs2 st4 hBr
                    exact (ih st4 q
                      (Expr.binop (tokAsOp (GetTokenPrecedence st).2.curToken)
                        lhs rhs2) s args).2.2.2.2.2 hq (by omega)
              · rw [if_neg h3]
                exact (ih (GetTokenPrecedence st2).2 q
                  (Expr.binop (tokAsOp (GetTokenPrecedence st).2.curToken)
                    lhs rhs) s args).2.2.2.2.2 hq (by omega)

/-! ## Big-step convergence

`EvalX st r` holds when the fuel-indexed function settles on result `r`
for some (hence, by monotonicity, any larger) fuel. The lemmas below are
the big-step rules of the parser, and the `Run` wrappers agree with any
converging run. -/

def EvalE (st : PSt) (r : Except String (Expr × PSt)) : Prop :=
  ∃ f, ParseExpression f st = some r

def EvalP (st : PSt) (r : Except String (Expr × PSt)) : Prop :=
  ∃ f, ParsePrimary f st = some r

def EvalPar (st : PSt) (r : Except String (Expr × PSt)) : Prop :=
  ∃ f, ParseParenExpr f st = some r

def EvalI (s : String) (st : PSt) (r : Except String (Expr × PSt)) : Prop :=
  ∃ f, ParseIdentifierExpr s f st = some r

def EvalA (args : List Expr) (st : PSt) (r : Except String (List Expr × PSt)) :
    Prop :=
  ∃ f, ParseArgsLoop f args st = some r

def EvalB (q : Int) (lhs : Expr) (st : PSt) (r : Except String (Expr × PSt)) :
    Prop :=
  ∃ f, ParseBinOpRHS f q lhs st = some r

theorem ParseExpressionRun_eq (f : Nat) (st : PSt)
    (r : Except String (Expr × PSt)) (h : ParseExpression f st = some r) :
    ParseExpressionRun st = r := by
  have hsuf := (Parse_fuel (4 * muP st + 5) st 0 (Expr.num "") "" []).1 (by omega)
  obtain ⟨r', hr'⟩ := Option.isSome_iff_exists.mp hsuf
  have e1 := (Parse_mono f (max f (4 * muP st + 5)) (le_max_left _ _)
    st 0 (Expr.num "") "" []).1 r h
  have e2 := (Parse_mono (4 * muP st + 5) (max f (4 * muP st + 5))
    (le_max_right _ _) st 0 (Expr.num "") "" []).1 r' hr'
  rw [e1] at e2
  rw [ParseExpressionRun, hr', Option.getD_some, Option.some.inj e2]

theorem EvalE_run (st : PSt) (r : Except String (Expr × PSt))
    (h : EvalE st r) : ParseExpressionRun st = r := by
  obtain ⟨f, h⟩ := h
  exact ParseExpressionRun_eq f st r h

theorem evalE_intro (st : PSt) (lhs : Expr) (st1 : PSt)
    (r : Except String (Expr × PSt))
    (h1 : EvalP st (Except.ok (lhs, st1))) (h2 : EvalB 0 lhs st1 r) :
    EvalE st r := by
  obtain ⟨f1, h1⟩ := h1
  obtain ⟨f2, h2⟩ := h2
  refine ⟨max f1 f2 + 1, ?_⟩
  rw [ParseExpression,
    (Parse_mono f1 (max f1 f2) (le_max_left _ _) st 0 lhs "" []).2.1 _ h1]
  exact (Parse_mono f2 (max f1 f2) (le_max_right _ _)
    st1 0 lhs "" []).2.2.2.2.2 r h2

theorem evalP_num (st : PSt) (s : String) (h : st.curToken = Tok.num s) :
    EvalP st (Except.ok (Expr.num s, getNextToken st)) := by
  refine ⟨1, ?_⟩
  rw [ParsePrimary, h]
  rfl

theorem evalP_ident (st : PSt) (s : String) (r : Except String (Expr × PSt))
    (h : st.curToken = Tok.ident s) (h2 : EvalI s st r) : EvalP st r := by
  obtain ⟨f, h2⟩ := h2
  refine ⟨f + 1, ?_⟩
  rw [ParsePrimary, h]
  exact h2

theorem evalP_paren (st : PSt) (r : Except String (Expr × PSt))
    (h : st.curToken = Tok.ch '(') (h2 : EvalPar st r) : EvalP st r := by
  obtain ⟨f, h2⟩ := h2
  refine ⟨f + 1, ?_⟩
  rw [ParsePrimary, h]
  show (if ('(' : Char) = '(' then ParseParenExpr f st
    else some (Except.error
      "unknown token when expecting an expression")) = some r
  rw [if_pos rfl]
  exact h2

theorem evalPar_ok (st : PSt) (v : Expr) (st1 : PSt)
    (h1 : EvalE (getNextToken st) (Except.ok (v, st1)))
    (h2 : st1.curToken = Tok.ch ')') :
    EvalPar st (Except.ok (v, getNextToken st1)) := by
  obtain ⟨f, h1⟩ := h1
  refine ⟨f + 1, ?_⟩
  rw [ParseParenExpr, h1]
  show (if st1.curToken = Tok.ch ')' then
      some (Except.ok (v, getNextToken st1))
    else some (Except.error "expected ')'")) = _
  rw [if_pos h2]

theorem evalI_var (st : PSt) (s : String)
    (h : (getNextToken st).curToken ≠ Tok.ch '(') :
    EvalI s st (Except.ok (Expr.var s, getNextToken st)) := by
  refine ⟨1, ?_⟩
  rw [ParseIdentifierExpr, if_pos h]

theorem evalI_call0 (st : PSt) (s : String)
    (h1 : (getNextToken st).curToken = Tok.ch '(')
    (h2 : (getNextToken (getNextToken st)).curToken = Tok.ch ')') :
    EvalI s st (Except.ok (Expr.call s [],
      getNextToken (getNextToken (getNextToken st)))) := by
  refine ⟨1, ?_⟩
  rw [ParseIdentifierExpr, if_neg (by simp [h1]), if_pos h2]

theorem evalI_call (st : PSt) (s : String) (args : List Expr) (st3 : PSt)
    (h1 : (getNextToken st).curToken = Tok.ch '(')
    (h2 : (getNextToken (getNextToken st)).curToken ≠ Tok.ch ')')
    (h3 : EvalA [] (getNextToken (getNextToken st))
      (Except.ok (args, st3))) :
    EvalI s st (Except.ok (Expr.call s args, getNextToken st3)) := by
  obtain ⟨f, h3⟩ := h3
  refine ⟨f + 1, ?_⟩
  rw [ParseIdentifierExpr, if_neg (by simp [h1]), if_neg h2, h3]

theorem evalA_last (st : PSt) (a : Expr) (st1 : PSt) (args : List Expr)
    (h1 : EvalE st (Except.ok (a, st1)))
    (h2 : st1.curToken = Tok.ch ')') :
    EvalA args st (Except.ok (args ++ [a], st1)) := by
  obtain ⟨f, h1⟩ := h1
  refine ⟨f + 1, ?_⟩
  rw [ParseArgsLoop, h1]
  show (if st1.curToken = Tok.ch ')' then
      some (Except.ok (args ++ [a], st1))
    else if st1.curToken ≠ Tok.ch ',' then
      some (Except.error "expected ')' or ',' in argument list")
    else ParseArgsLoop f (args ++ [a]) (getNextToken st1)) = _
  rw [if_pos h2]

theorem evalA_cons (st : PSt) (a : Expr) (st1 : PSt) (args : List Expr)
    (r : Except String (List Expr × PSt))
    (h1 : EvalE st (Except.ok (a, st1)))
    (h2 : st1.curToken = Tok.ch ',')
    (h3 : EvalA (args ++ [a]) (getNextToken st1) r) :
    EvalA args st r := by
  obtain ⟨f1, h1⟩ := h1
  obtain ⟨f3, h3⟩ := h3
  refine ⟨max f1 f3 + 1, ?_⟩
  rw [ParseArgsLoop,
    (Parse_mono f1 (max f1 f3) (le_max_left _ _) st 0 a "" args).1 _ h1]
  show (if st1.curToken = Tok.ch ')' then
      some (Except.ok (args ++ [a], st1))
    else if st1.curToken ≠ Tok.ch ',' then
      some (Except.error "expected ')' or ',' in argument list")
    else ParseArgsLoop (max f1 f3) (args ++ [a]) (getNextToken st1)) = _
  rw [if_neg (by simp [h2]), if_neg (by simp [h2])]
  exact (Parse_mono f3 (max f1 f3) (le_max_right _ _)
    (getNextToken st1) 0 a "" (args ++ [a])).2.2.2.2.1 r h3

theorem evalB_stop (st : PSt) (q : Int) (lhs : Expr)
    (h : (GetTokenPrecedence st).1 < q) :
    EvalB q lhs st (Except.ok (lhs, (GetTokenPrecedence st).2)) := by
  refine ⟨1, ?_⟩
  rw [ParseBinOpRHS, if_pos h]

theorem evalB_step (st : PSt) (q : Int) (lhs rhs : Expr) (st2 : PSt)
    (r : Except String (Expr × PSt))
    (h1 : ¬ (GetTokenPrecedence st).1 < q)
    (h2 : EvalP (getNextToken (GetTokenPrecedence st).2)
      (Except.ok (rhs, st2)))
    (h3 : ¬ (GetTokenPrecedence st).1 < (GetTokenPrecedence st2).1)
    (h4 : EvalB q (Expr.binop (tokAsOp (GetTokenPrecedence st).2.curToken)
      lhs rhs) (GetTokenPrecedence st2).2 r) :
    EvalB q lhs st r := by
  obtain ⟨f2, h2⟩ := h2
  obtain ⟨f4, h4⟩ := h4
  refine ⟨max f2 f4 + 1, ?_⟩
  rw [ParseBinOpRHS, if_neg h1,
    (Parse_mono f2 (max f2 f4) (le_max_left _ _)
      (getNextToken (GetTokenPrecedence st).2) q lhs "" []).2.1 _ h2]
  show (if (GetTokenPrecedence st).1 < (GetTokenPrecedence st2).1 then
      match ParseBinOpRHS (max f2 f4) ((GetTokenPrecedence st).1 + 1) rhs
          (GetTokenPrecedence st2).2 with
      | none => none
      | some (Except.error e) => some (Except.error e)
      | some (Except.ok (rhs2, st4)) =>
        ParseBinOpRHS (max f2 f4) q
          (Expr.binop (tokAsOp (GetTokenPrecedence st).2.curToken)
            lhs rhs2) st4
    else
      ParseBinOpRHS (max f2 f4) q
        (Expr.binop (tokAsOp (GetTokenPrecedence st).2.curToken) lhs rhs)
        (GetTokenPrecedence st2).2) = some r
  rw [if_neg h3]
  exact (Parse_mono f4 (max f2 f4) (le_max_right _ _)
    (GetTokenPrecedence st2).2 q
    (Expr.binop (tokAsOp (GetTokenPrecedence st).2.curToken) lhs rhs)
    "" []).2.2.2.2.2 r h4

theorem evalB_stepRec (st : PSt) (q : Int) (lhs rhs rhs2 : Expr)
    (st2 st4 : PSt) (r : Except String (Expr × PSt))
    (h1 : ¬ (GetTokenPrecedence st).1 < q)
    (h2 : EvalP (getNextToken (GetTokenPrecedence st).2)
      (Except.ok (rhs, st2)))
    (h3 : (GetTokenPrecedence st).1 < (GetTokenPrecedence st2).1)
    (h4 : EvalB ((GetTokenPrecedence st).1 + 1) rhs
      (GetTokenPrecedence st2).2 (Except.ok (rhs2, st4)))
    (h5 : EvalB q (Expr.binop (tokAsOp (GetTokenPrecedence st).2.curToken)
      lhs rhs2) st4 r) :
    EvalB q lhs st r := by
  obtain ⟨f2, h2⟩ := h2
  obtain ⟨f4, h4⟩ := h4
  obtain ⟨f5, h5⟩ := h5
  refine ⟨max f2 (max f4 f5) + 1, ?_⟩
  rw [ParseBinOpRHS, if_neg h1,
    (Parse_mono f2 (max f2 (max f4 f5)) (le_max_left _ _)
      (getNextToken (GetTokenPrecedence st).2) q lhs "" []).2.1 _ h2]
  show (if (GetTokenPrecedence st).1 < (GetTokenPrecedence st2).1 then
      match ParseBinOpRHS (max f2 (max f4 f5))
          ((GetTokenPrecedence st).1 + 1) rhs
          (GetTokenPrecedence st2).2 with
      | none => none
      | some (Except.error e) => some (Except.error e)
      | some (Except.ok (rhs2, st4)) =>
        ParseBinOpRHS (max f2 (max f4 f5)) q
          (Expr.binop (tokAsOp (GetTokenPrecedence st).2.curToken)
            lhs rhs2) st4
    else
      ParseBinOpRHS (max f2 (max f4 f5)) q
        (Expr.binop (tokAsOp (GetTokenPrecedence st).2.curToken) lhs rhs)
        (GetTokenPrecedence st2).2) = some r
  rw [if_pos h3,
    (Parse_mono f4 (max f2 (max f4 f5))
      (le_trans (le_max_left _ _) (le_max_right _ _))
      (GetTokenPrecedence st2).2 ((GetTokenPrecedence st).1 + 1) rhs
      "" []).2.2.2.2.2 _ h4]
  exact (Parse_mono f5 (max f2 (max f4 f5))
    (le_trans (le_max_right _ _) (le_max_right _ _)) st4 q
    (Expr.binop (tokAsOp (GetTokenPrecedence st).2.curToken) lhs rhs2)
    "" []).2.2.2.2.2 r h5

/-! ## The declarative shape of expressions under the default table

`Renders p e ts` says: token list `ts` is an expression whose AST `e` has
the shape demanded by the standard precedence rules of the four default
operators (`*` 40 over `+`/`-` 20 over `<` 10), read at minimum binding
level `p`: an un-parenthesised `BinaryOp op l r` needs `defaultPrec op ≥ p`,
its left subtree is read at level `defaultPrec op` (so an equal-precedence
chain hangs to the left — left-associativity), its right subtree at level
`defaultPrec op + 1` (strictly tighter). Primaries are literals, variable
references, calls with comma-separated level-0 arguments, and arbitrary
parenthesised level-0 expressions. -/

/-- Effective precedence under the default operator table. -/
def defaultPrec (c : Char) : Int := effPrec defaultTable c

/-- A table observably equal to the default one (extra zero-precedence
entries allowed — the parser inserts those while querying). -/
def EffD (tb : List (Char × Int)) : Prop :=
  ∀ c, effPrec tb c = defaultPrec c

mutual

inductive PrimR : Expr → List Tok → Prop where
  | num : ∀ s, PrimR (Expr.num s) [Tok.num s]
  | var : ∀ s, PrimR (Expr.var s) [Tok.ident s]
  | callNil : ∀ s, PrimR (Expr.call s [])
      [Tok.ident s, Tok.ch '(', Tok.ch ')']
  | call : ∀ s args ats, ArgsR args ats →
      PrimR (Expr.call s args)
        (Tok.ident s :: Tok.ch '(' :: (ats ++ [Tok.ch ')']))
  | paren : ∀ e ts, Renders 0 e ts →
      PrimR e (Tok.ch '(' :: (ts ++ [Tok.ch ')']))

inductive ArgsR : List Expr → List Tok → Prop where
  | one : ∀ e ts, Renders 0 e ts → ArgsR [e] ts
  | cons : ∀ e ts es tss, Renders 0 e ts → ArgsR es tss →
      ArgsR (e :: es) (ts ++ Tok.ch ',' :: tss)

inductive Renders : Int → Expr → List Tok → Prop where
  | prim : ∀ p e ts, PrimR e ts → Renders p e ts
  | binop : ∀ p op l r lts rts, p ≤ defaultPrec op →
      Renders (defaultPrec op) l lts →
      Renders (defaultPrec op + 1) r rts →
      Renders p (Expr.binop op l r) (lts ++ Tok.ch op :: rts)

end

/-- The left spine of a shaped expression, as consumed by the
precedence-climbing loop: starting from an accumulated left-hand side,
a sequence of groups "operator, then its right-hand side" with
non-increasing operator precedences, all at least `q`, the first at most
`cap`. `Chain q cap lhs e ts` folds `lhs` into `e`. -/
inductive Chain : Int → Int → Expr → Expr → List Tok → Prop where
  | nil : ∀ q cap e, Chain q cap e e []
  | cons : ∀ q cap op r rts lhs e ts, q ≤ defaultPrec op →
      defaultPrec op ≤ cap →
      Renders (defaultPrec op + 1) r rts →
      Chain q (defaultPrec op) (Expr.binop op lhs r) e ts →
      Chain q cap lhs e (Tok.ch op :: (rts ++ ts))

theorem defaultTable_explicit :
    defaultTable = [('*', 40), ('+', 20), ('-', 20), ('<', 10)] := by rfl

theorem defaultPrec_cases (c : Char) :
    defaultPrec c = -1 ∨ (c = '<' ∧ defaultPrec c = 10) ∨
    (c = '+' ∧ defaultPrec c = 20) ∨ (c = '-' ∧ defaultPrec c = 20) ∨
    (c = '*' ∧ defaultPrec c = 40) := by
  by_cases h1 : c = '<'
  · subst h1; right; left; exact ⟨rfl, by rfl⟩
  · by_cases h2 : c = '+'
    · subst h2; right; right; left; exact ⟨rfl, by rfl⟩
    · by_cases h3 : c = '-'
      · subst h3; right; right; right; left; exact ⟨rfl, by rfl⟩
      · by_cases h4 : c = '*'
        · subst h4; right; right; right; right; exact ⟨rfl, by rfl⟩
        · left
          rw [defaultPrec, effPrec, defaultTable_explicit]
          have b1 : (c == '*') = false := beq_eq_false_iff_ne.mpr h4
          have b2 : (c == '+') = false := beq_eq_false_iff_ne.mpr h2
          have b3 : (c == '-') = false := beq_eq_false_iff_ne.mpr h3
          have b4 : (c == '<') = false := beq_eq_false_iff_ne.mpr h1
          simp [List.lookup, b1, b2, b3, b4]

theorem defaultPrec_le40 (c : Char) : defaultPrec c ≤ 40 := by
  rcases defaultPrec_cases c with h | ⟨_, h⟩ | ⟨_, h⟩ | ⟨_, h⟩ | ⟨_, h⟩ <;>
    omega

theorem defaultPrec_pos_op (c : Char) (h : 0 ≤ defaultPrec c) :
    (c = '<' ∨ c = '+' ∨ c = '-' ∨ c = '*') ∧ 10 ≤ defaultPrec c ∧
      cIsAscii c = true ∧ c ≠ '(' := by
  rcases defaultPrec_cases c with h1 | ⟨h1, h2⟩ | ⟨h1, h2⟩ | ⟨h1, h2⟩ |
    ⟨h1, h2⟩
  · omega
  · subst h1; exact ⟨Or.inl rfl, by omega, by rfl, by decide⟩
  · subst h1; exact ⟨Or.inr (Or.inl rfl), by omega, by rfl, by decide⟩
  · subst h1
    exact ⟨Or.inr (Or.inr (Or.inl rfl)), by omega, by rfl, by decide⟩
  · subst h1
    exact ⟨Or.inr (Or.inr (Or.inr rfl)), by omega, by rfl, by decide⟩

theorem EffD_defaultTable : EffD defaultTable := fun _ => rfl

/-- The precedence the parser sees for a pending token. -/
def tokPrecD : Tok → Int
  | Tok.ch c => defaultPrec c
  | _ => -1

/-- Precedence of the first pending token of a stream (−1 when empty:
the parser then sits on `eof`). -/
def headPrec : List Tok → Int
  | [] => -1
  | t :: _ => tokPrecD t

/-- The head of the stream does not open a parenthesis (so a variable
reference is not mistaken for a call). -/
def noParenHead : List Tok → Prop
  | [] => True
  | t :: _ => t ≠ Tok.ch '('

/-- What may follow an expression read at minimum level `q`: a token the
loop refuses, not an opening parenthesis. -/
def Boundary (q : Int) (rest : List Tok) : Prop :=
  headPrec rest < q ∧ noParenHead rest

/-! ## Stream-state bookkeeping -/

theorem getNextToken_mkSt (t : Tok) (ts : List Tok) (tb : List (Char × Int)) :
    getNextToken (mkSt (t :: ts) tb) = mkSt ts tb := by
  cases ts <;> rfl

theorem mkSt_curToken_cons (t : Tok) (ts : List Tok)
    (tb : List (Char × Int)) : (mkSt (t :: ts) tb).curToken = t := rfl

theorem mkSt_curToken_nil (tb : List (Char × Int)) :
    (mkSt [] tb).curToken = Tok.eof := rfl

theorem mkSt_append_cons (t : Tok) (ts rest : List Tok)
    (tb : List (Char × Int)) :
    mkSt ((t :: ts) ++ rest) tb = mkSt (t :: (ts ++ rest)) tb := rfl

/-- The current token of a primed stream state. -/
theorem mkSt_curToken (ts : List Tok) (tb : List (Char × Int)) :
    (mkSt ts tb).curToken = match ts with | [] => Tok.eof | t :: _ => t := by
  cases ts <;> rfl

theorem GetTokenPrecedence_mkSt_state (ts : List Tok)
    (tb : List (Char × Int)) :
    (GetTokenPrecedence (mkSt ts tb)).2 =
      mkSt ts ((GetTokenPrecedence (mkSt ts tb)).2.table) := by
  have h1 := GetTokenPrecedence_curToken (mkSt ts tb)
  have h2 := GetTokenPrecedence_rest (mkSt ts tb)
  rcases hg : (GetTokenPrecedence (mkSt ts tb)).2 with ⟨ct, rs, tbl⟩
  rw [hg] at h1 h2
  simp only at h1 h2 ⊢
  cases ts with
  | nil =>
    rw [h1, h2]
    rfl
  | cons t ts2 =>
    rw [h1, h2]
    rfl

theorem GetTokenPrecedence_val (st : PSt) :
    (GetTokenPrecedence st).1 =
      (match st.curToken with
        | Tok.ch c => if cIsAscii c then effPrec st.table c else -1
        | _ => -1) := by
  cases hcur : st.curToken with
  | ch c =>
    by_cases ha : cIsAscii c = true
    · cases hl : st.table.lookup c with
      | some v =>
        by_cases hv : v ≤ 0 <;>
          simp [GetTokenPrecedence, hcur, ha, hl, hv, effPrec]
      | none => simp [GetTokenPrecedence, hcur, ha, hl, effPrec]
    · simp [GetTokenPrecedence, hcur, ha]
  | eof => simp [GetTokenPrecedence, hcur]
  | kwDef => simp [GetTokenPrecedence, hcur]
  | kwExt => simp [GetTokenPrecedence, hcur]
  | ident s => simp [GetTokenPrecedence, hcur]
  | num s => simp [GetTokenPrecedence, hcur]

theorem defaultPrec_not_ascii (c : Char) (h : ¬ cIsAscii c = true) :
    defaultPrec c = -1 := by
  rcases defaultPrec_cases c with h1 | ⟨h1, _⟩ | ⟨h1, _⟩ | ⟨h1, _⟩ | ⟨h1, _⟩
  · exact h1
  all_goals (subst h1; exact absurd (by rfl) h)

/-- Under a default-equivalent table the loop sees exactly the default
precedence of the head token. -/
theorem GetTokenPrecedence_mkSt_val (ts : List Tok) (tb : List (Char × Int))
    (h : EffD tb) :
    (GetTokenPrecedence (mkSt ts tb)).1 = headPrec ts := by
  rw [GetTokenPrecedence_val]
  cases ts with
  | nil => rfl
  | cons t ts2 =>
    rw [mkSt_curToken_cons]
    cases t with
    | ch c =>
      by_cases ha : cIsAscii c = true
      · simp only [ha, if_true]
        show effPrec (mkSt (Tok.ch c :: ts2) tb).table c = headPrec (Tok.ch c :: ts2)
        have htb : (mkSt (Tok.ch c :: ts2) tb).table = tb := rfl
        rw [htb, h c]
        rfl
      · simp only [ha, if_false]
        show (-1 : Int) = headPrec (Tok.ch c :: ts2)
        rw [headPrec]
        show (-1 : Int) = tokPrecD (Tok.ch c)
        rw [tokPrecD, defaultPrec_not_ascii c ha]
    | eof => rfl
    | kwDef => rfl
    | kwExt => rfl
    | ident s => rfl
    | num s => rfl

theorem GetTokenPrecedence_mkSt_effD (ts : List Tok) (tb : List (Char × Int))
    (h : EffD tb) : EffD (GetTokenPrecedence (mkSt ts tb)).2.table := by
  intro c
  rw [GetTokenPrecedence_effPrec]
  show effPrec (mkSt ts tb).table c = defaultPrec c
  have htb : (mkSt ts tb).table = tb := by cases ts <;> rfl
  rw [htb]
  exact h c

/-! ## Shape facts about renderings -/

theorem primR_ne_nil (e : Expr) (ts : List Tok) (h : PrimR e ts) :
    ts ≠ [] := by
  cases h <;> simp

theorem renders_ne_nil (p : Int) (e : Expr) (ts : List Tok)
    (h : Renders p e ts) : ts ≠ [] := by
  cases h with
  | prim p e ts hp => exact primR_ne_nil e ts hp
  | binop p op l r lts rts h1 h2 h3 => simp

/-- The first token of any rendered expression opens a primary: a number,
an identifier, or `'('` — never `')'`, an operator, a comma or a keyword. -/
theorem renders_head (n : Nat) : ∀ ts : List Tok, ts.length ≤ n →
    ∀ p e, Renders p e ts → ∀ t ts2, ts = t :: ts2 →
    (∃ s, t = Tok.num s) ∨ (∃ s, t = Tok.ident s) ∨ t = Tok.ch '(' := by
  induction n using Nat.strong_induction_on with
  | _ n ih =>
    intro ts hlen p e h t ts2 hts
    cases h with
    | prim p e ts hp =>
      cases hp with
      | num s => left; exact ⟨s, by cases hts; rfl⟩
      | var s => right; left; exact ⟨s, by cases hts; rfl⟩
      | callNil s => right; left; exact ⟨s, by cases hts; rfl⟩
      | call s args ats ha => right; left; exact ⟨s, by cases hts; rfl⟩
      | paren e2 ts3 hr => right; right; cases hts; rfl
    | binop p op l r lts rts h1 h2 h3 =>
      cases hl : lts with
      | nil => exact absurd hl (renders_ne_nil _ _ _ h2)
      | cons t1 lts2 =>
        subst hl
        have he : t1 = t := by
          have h5 := congrArg (fun l => List.head? l) hts
          simpa using h5
        subst he
        have hlen2 : (t1 :: lts2).length < n := by
          have h4 := hlen
          simp only [List.cons_append, List.length_cons, List.length_append]
            at h4 ⊢
          omega
        exact ih (t1 :: lts2).length hlen2 (t1 :: lts2) (le_refl _)
          (defaultPrec op) l h2 t1 lts2 rfl
/-! ## Decomposing a rendering into primary plus left spine -/

/-- Case view of a spine, with all pieces named. -/
theorem chain_cases {q cap : Int} {lhs e : Expr} {ts : List Tok}
    (h : Chain q cap lhs e ts) :
    (ts = [] ∧ lhs = e) ∨
    ∃ op r rts ts2, ts = Tok.ch op :: (rts ++ ts2) ∧ q ≤ defaultPrec op ∧
      defaultPrec op ≤ cap ∧ Renders (defaultPrec op + 1) r rts ∧
      Chain q (defaultPrec op) (Expr.binop op lhs r) e ts2 :=
  match h with
  | Chain.nil _ _ _ => Or.inl ⟨rfl, rfl⟩
  | Chain.cons _ _ op r rts _ _ ts2 hq hcap hr hch =>
    Or.inr ⟨op, r, rts, ts2, rfl, hq, hcap, hr, hch⟩

/-- Case view of a nonempty argument-list rendering. -/
theorem argsR_cases {es : List Expr} {ts : List Tok} (h : ArgsR es ts) :
    (∃ e, es = [e] ∧ Renders 0 e ts) ∨
    (∃ e ets es2 tss, es = e :: es2 ∧ ts = ets ++ Tok.ch ',' :: tss ∧
      Renders 0 e ets ∧ ArgsR es2 tss) :=
  match h with
  | ArgsR.one e ts hr => Or.inl ⟨e, rfl, hr⟩
  | ArgsR.cons e ets es2 tss hr ha =>
    Or.inr ⟨e, ets, es2, tss, rfl, rfl, hr, ha⟩

theorem chain_snoc (n : Nat) : ∀ {q cap : Int} {lhs m : Expr}
    {cts : List Tok}, cts.length ≤ n → Chain q cap lhs m cts →
    ∀ p op r rts, p ≤ defaultPrec op → defaultPrec op ≤ q →
    defaultPrec op ≤ cap → Renders (defaultPrec op + 1) r rts →
    Chain p cap lhs (Expr.binop op m r) (cts ++ Tok.ch op :: rts) := by
  induction n using Nat.strong_induction_on with
  | _ n ih =>
    intro q cap lhs m cts hlen h p op r rts h1 h2 h3 hr
    rcases chain_cases h with ⟨rfl, rfl⟩ |
      ⟨op1, r1, rts1, ts2, heq, hq2, hcap2, hr1, hch2⟩
    · have he : (([] : List Tok) ++ Tok.ch op :: rts) =
          Tok.ch op :: (rts ++ []) := by simp
      rw [he]
      exact Chain.cons p cap op r rts lhs (Expr.binop op lhs r) [] h1 h3 hr
        (Chain.nil p (defaultPrec op) (Expr.binop op lhs r))
    · subst heq
      have he : (Tok.ch op1 :: (rts1 ++ ts2)) ++ Tok.ch op :: rts =
          Tok.ch op1 :: (rts1 ++ (ts2 ++ Tok.ch op :: rts)) := by simp
      rw [he]
      have hlen2 : ts2.length < n := by
        simp only [List.length_cons, List.length_append] at hlen
        omega
      exact Chain.cons p cap op1 r1 rts1 lhs (Expr.binop op m r)
        (ts2 ++ Tok.ch op :: rts) (le_trans (le_trans h1 h2) hq2) hcap2 hr1
        (ih ts2.length hlen2 (le_refl _) hch2 p op r rts h1 h2
          (le_trans h2 hq2) hr)

/-- Every rendering splits into a primary and a left spine whose operator
precedences are at least the reading level and at most 40. -/
theorem renders_decomp (n : Nat) : ∀ ts : List Tok, ts.length ≤ n →
    ∀ p e, Renders p e ts →
    ∃ prim pts cts, PrimR prim pts ∧ Chain p 40 prim e cts ∧
      ts = pts ++ cts := by
  induction n using Nat.strong_induction_on with
  | _ n ih =>
    intro ts hlen p e h
    cases h with
    | prim p e ts hp =>
      exact ⟨e, ts, [], hp, Chain.nil p 40 e, by simp⟩
    | binop p op l r lts rts h1 h2 h3 =>
      have hll : lts.length < n := by
        have h4 := hlen
        simp only [List.length_append, List.length_cons] at h4
        omega
      obtain ⟨prim, pts, cts, hprim, hchain, hsplit⟩ :=
        ih lts.length hll lts (le_refl _) (defaultPrec op) l h2
      refine ⟨prim, pts, cts ++ Tok.ch op :: rts, hprim, ?_, ?_⟩
      · exact chain_snoc cts.length (le_refl _) hchain p op r rts h1
          (le_refl _) (defaultPrec_le40 op) h3
      · rw [hsplit]
        simp

/-- The tokens of a spine followed by a boundary: the head, if any, binds
no tighter than the spine cap and does not open a parenthesis. -/
theorem chain_boundary {q cap : Int} {lhs e : Expr} {ts : List Tok}
    (h : Chain q cap lhs e ts) (hq : 0 ≤ q) {rest : List Tok}
    (hb : Boundary q rest) (hqc : q ≤ cap) :
    headPrec (ts ++ rest) ≤ cap ∧ noParenHead (ts ++ rest) := by
  rcases chain_cases h with ⟨rfl, rfl⟩ | ⟨op, r, rts, ts2, heq, h1, h2, hr, hch⟩
  · obtain ⟨hb1, hb2⟩ := hb
    simp only [List.nil_append]
    exact ⟨by omega, hb2⟩
  · subst heq
    constructor
    · show headPrec (Tok.ch op :: (rts ++ ts2) ++ rest) ≤ cap
      show tokPrecD (Tok.ch op) ≤ cap
      show defaultPrec op ≤ cap
      exact h2
    · show noParenHead (Tok.ch op :: (rts ++ ts2) ++ rest)
      show Tok.ch op ≠ Tok.ch '('
      intro hcon
      have heq2 : op = '(' := by
        cases hcon
        rfl
      subst heq2
      have h3 := (defaultPrec_pos_op '(' (by omega)).2.2.2
      exact h3 rfl

/-! ## The parser realises the declarative shape

`Part1`–`Part4` below say that, over any table observably equal to the
default one, the parser consumes exactly the tokens of a rendering and
returns its AST: primaries via `ParsePrimary`, spines via `ParseBinOpRHS`,
full expressions via `ParseExpression`, argument lists via the call-site
loop. They are proven simultaneously by strong induction on the token
count. -/

def Part1 (n : Nat) : Prop :=
  ∀ ts : List Tok, ts.length ≤ n → ∀ e, PrimR e ts →
  ∀ rest tb, EffD tb → noParenHead rest →
  ∃ tb2, EvalP (mkSt (ts ++ rest) tb) (Except.ok (e, mkSt rest tb2)) ∧
    EffD tb2

def Part2 (n : Nat) : Prop :=
  ∀ ts : List Tok, ts.length ≤ n → ∀ q cap lhs e, Chain q cap lhs e ts →
  0 ≤ q → ∀ rest tb, EffD tb → Boundary q rest →
  ∃ tb2, EvalB q lhs (mkSt (ts ++ rest) tb)
    (Except.ok (e, mkSt rest tb2)) ∧ EffD tb2

def Part3 (n : Nat) : Prop :=
  ∀ ts : List Tok, ts.length ≤ n → ∀ e, Renders 0 e ts →
  ∀ rest tb, EffD tb → Boundary 0 rest →
  ∃ tb2, EvalE (mkSt (ts ++ rest) tb)
    (Except.ok (e, mkSt rest tb2)) ∧ EffD tb2

def Part4 (n : Nat) : Prop :=
  ∀ ts : List Tok, ts.length ≤ n → ∀ es, ArgsR es ts →
  ∀ args rest tb, EffD tb →
  ∃ tb2, EvalA args (mkSt (ts ++ Tok.ch ')' :: rest) tb)
    (Except.ok (args ++ es, mkSt (Tok.ch ')' :: rest) tb2)) ∧ EffD tb2

def CorrectUpTo (n : Nat) : Prop :=
  Part1 n ∧ Part2 n ∧ Part3 n ∧ Part4 n

theorem noParen_curToken (rest : List Tok) (tb : List (Char × Int))
    (h : noParenHead rest) : (mkSt rest tb).curToken ≠ Tok.ch '(' := by
  cases rest with
  | nil => intro hcon; exact Tok.noConfusion hcon
  | cons t ts => exact h

theorem argsR_ne_nil (es : List Expr) (ts : List Tok) (h : ArgsR es ts) :
    ts ≠ [] := by
  rcases argsR_cases h with ⟨e, _, hr⟩ | ⟨e, ets, es2, tss, _, heq, hr, _⟩
  · exact renders_ne_nil 0 e ts hr
  · subst heq
    cases hets : ets with
    | nil => exact absurd hets (renders_ne_nil 0 e ets hr)
    | cons t ts2 => simp

theorem argsR_head (es : List Expr) (ts : List Tok) (h : ArgsR es ts)
    (t : Tok) (ts2 : List Tok) (heq : ts = t :: ts2) :
    (∃ s, t = Tok.num s) ∨ (∃ s, t = Tok.ident s) ∨ t = Tok.ch '(' := by
  rcases argsR_cases h with ⟨e, _, hr⟩ | ⟨e, ets, es2, tss, _, heq2, hr, _⟩
  · exact renders_head ts.length ts (le_refl _) 0 e hr t ts2 heq
  · subst heq2
    cases hets : ets with
    | nil => exact absurd hets (renders_ne_nil 0 e ets hr)
    | cons t1 ts3 =>
      subst hets
      have ht : t1 = t := by
        have h5 := congrArg (fun l => List.head? l) heq
        simpa using h5
      subst ht
      exact renders_head (t1 :: ts3).length (t1 :: ts3) (le_refl _) 0 e hr
        t1 ts3 rfl

theorem defaultPrec_rparen : defaultPrec ')' = -1 := by rfl

theorem defaultPrec_comma : defaultPrec ',' = -1 := by rfl

theorem part1_step (n : Nat) (ih : ∀ m, m < n → CorrectUpTo m) : Part1 n := by
  intro ts hlen e hp rest tb htb hnp
  cases hp with
  | num s =>
    simp only [List.singleton_append]
    refine ⟨tb, ?_, htb⟩
    have h2 := evalP_num (mkSt (Tok.num s :: rest) tb) s
      (mkSt_curToken_cons _ _ _)
    rw [getNextToken_mkSt] at h2
    exact h2
  | var s =>
    simp only [List.singleton_append]
    refine ⟨tb, ?_, htb⟩
    have hne : (getNextToken (mkSt (Tok.ident s :: rest) tb)).curToken ≠
        Tok.ch '(' := by
      rw [getNextToken_mkSt]
      exact noParen_curToken rest tb hnp
    have h2 := evalI_var (mkSt (Tok.ident s :: rest) tb) s hne
    rw [getNextToken_mkSt] at h2
    exact evalP_ident _ s _ (mkSt_curToken_cons _ _ _) h2
  | callNil s =>
    simp only [List.cons_append, List.singleton_append]
    refine ⟨tb, ?_, htb⟩
    have h1 : (getNextToken (mkSt (Tok.ident s :: Tok.ch '(' :: Tok.ch ')' ::
        rest) tb)).curToken = Tok.ch '(' := by
      rw [getNextToken_mkSt]
      rfl
    have h2 : (getNextToken (getNextToken (mkSt (Tok.ident s :: Tok.ch '(' ::
        Tok.ch ')' :: rest) tb))).curToken = Tok.ch ')' := by
      rw [getNextToken_mkSt, getNextToken_mkSt]
      rfl
    have h3 := evalI_call0 (mkSt (Tok.ident s :: Tok.ch '(' :: Tok.ch ')' ::
      rest) tb) s h1 h2
    rw [getNextToken_mkSt, getNextToken_mkSt, getNextToken_mkSt] at h3
    exact evalP_ident _ s _ (mkSt_curToken_cons _ _ _) h3
  | call s args ats ha =>
    simp only [List.cons_append, List.append_assoc, List.singleton_append]
    have hlt : ats.length < n := by
      simp only [List.cons_append, List.length_cons, List.length_append,
        List.length_singleton] at hlen
      omega
    obtain ⟨tb2, hA, htb2⟩ := (ih ats.length hlt).2.2.2 ats (le_refl _)
      args ha [] rest tb htb
    simp only [List.nil_append] at hA
    refine ⟨tb2, ?_, htb2⟩
    have h1 : (getNextToken (mkSt (Tok.ident s :: Tok.ch '(' ::
        (ats ++ Tok.ch ')' :: rest)) tb)).curToken = Tok.ch '(' := by
      rw [getNextToken_mkSt]
      rfl
    have h2 : (getNextToken (getNextToken (mkSt (Tok.ident s :: Tok.ch '(' ::
        (ats ++ Tok.ch ')' :: rest)) tb))).curToken ≠ Tok.ch ')' := by
      rw [getNextToken_mkSt, getNextToken_mkSt]
      cases hats : ats with
      | nil => exact absurd hats (argsR_ne_nil args ats ha)
      | cons t ats2 =>
        simp only [List.cons_append, mkSt_curToken_cons]
        rcases argsR_head args ats ha t ats2 hats with ⟨s2, ht⟩ | ⟨s2, ht⟩ |
          ht
        · subst ht; intro hcon; exact Tok.noConfusion hcon
        · subst ht; intro hcon; exact Tok.noConfusion hcon
        · subst ht; decide
    have h3 := evalI_call (mkSt (Tok.ident s :: Tok.ch '(' ::
      (ats ++ Tok.ch ')' :: rest)) tb) s args (mkSt (Tok.ch ')' :: rest) tb2)
      h1 h2 (by rw [getNextToken_mkSt, getNextToken_mkSt]; exact hA)
    rw [getNextToken_mkSt] at h3
    exact evalP_ident _ s _ (mkSt_curToken_cons _ _ _) h3
  | paren e2 ts2 hr =>
    simp only [List.cons_append, List.append_assoc, List.singleton_append]
    have hlt : ts2.length < n := by
      simp only [List.cons_append, List.length_cons, List.length_append,
        List.length_singleton] at hlen
      omega
    have hbd : Boundary 0 (Tok.ch ')' :: rest) := by
      constructor
      · show tokPrecD (Tok.ch ')') < 0
        show defaultPrec ')' < 0
        rw [defaultPrec_rparen]
        omega
      · show Tok.ch ')' ≠ Tok.ch '('
        decide
    obtain ⟨tb1, hE, htb1⟩ := (ih ts2.length hlt).2.2.1 ts2 (le_refl _)
      e hr (Tok.ch ')' :: rest) tb htb hbd
    refine ⟨tb1, ?_, htb1⟩
    have h2 := evalPar_ok (mkSt (Tok.ch '(' :: (ts2 ++ Tok.ch ')' :: rest))
      tb) e (mkSt (Tok.ch ')' :: rest) tb1)
      (by rw [getNextToken_mkSt]; exact hE) (mkSt_curToken_cons _ _ _)
    rw [getNextToken_mkSt] at h2
    exact evalP_paren _ _ (mkSt_curToken_cons _ _ _) h2

theorem part2_step (n : Nat) (ih : ∀ m, m < n → CorrectUpTo m) : Part2 n := by
  intro ts hlen q cap lhs e hch hq rest tb htb hb
  rcases chain_cases hch with ⟨rfl, rfl⟩ |
    ⟨op, r, rts, ts2, heq, hq2, hcap2, hr, hch2⟩
  · simp only [List.nil_append]
    refine ⟨(GetTokenPrecedence (mkSt rest tb)).2.table, ?_,
      GetTokenPrecedence_mkSt_effD rest tb htb⟩
    have hlt : (GetTokenPrecedence (mkSt rest tb)).1 < q := by
      rw [GetTokenPrecedence_mkSt_val rest tb htb]
      exact hb.1
    have hstop := evalB_stop (mkSt rest tb) q lhs hlt
    rw [GetTokenPrecedence_mkSt_state rest tb] at hstop
    exact hstop
  · subst heq
    obtain ⟨pr, prts, crts, hprim, hrchain, hsplit⟩ :=
      renders_decomp rts.length rts (le_refl _) (defaultPrec op + 1) r hr
    subst hsplit
    have hlens : prts.length < n ∧ crts.length < n ∧ ts2.length < n := by
      simp only [List.length_cons, List.length_append] at hlen
      omega
    simp only [List.cons_append, List.append_assoc]
    have hv : (GetTokenPrecedence (mkSt (Tok.ch op ::
        (prts ++ (crts ++ (ts2 ++ rest)))) tb)).1 = defaultPrec op := by
      rw [GetTokenPrecedence_mkSt_val _ tb htb]
      rfl
    have hnostop : ¬ (GetTokenPrecedence (mkSt (Tok.ch op ::
        (prts ++ (crts ++ (ts2 ++ rest)))) tb)).1 < q := by
      rw [hv]; omega
    have hstate := GetTokenPrecedence_mkSt_state
      (Tok.ch op :: (prts ++ (crts ++ (ts2 ++ rest)))) tb
    have htb0 : EffD (GetTokenPrecedence (mkSt (Tok.ch op ::
        (prts ++ (crts ++ (ts2 ++ rest)))) tb)).2.table :=
      GetTokenPrecedence_mkSt_effD _ tb htb
    have hop : tokAsOp (GetTokenPrecedence (mkSt (Tok.ch op ::
        (prts ++ (crts ++ (ts2 ++ rest)))) tb)).2.curToken = op := by
      rw [GetTokenPrecedence_curToken]
      rfl
    have hbd2 := chain_boundary hch2 hq hb hq2
    rcases chain_cases hrchain with ⟨rfl, rfl⟩ |
      ⟨op2, r2, rts2x, ts2x, heq2, hq2x, hcapx, hr2, hch2x⟩
    · -- the right-hand side is a bare primary
      simp only [List.nil_append] at hbd2 hv hnostop hstate htb0 hop ⊢
      obtain ⟨tb1, hP, htb1⟩ := (ih prts.length hlens.1).1 prts (le_refl _)
        pr hprim (ts2 ++ rest) _ htb0 hbd2.2
      have hv2 : (GetTokenPrecedence (mkSt (ts2 ++ rest) tb1)).1 =
          headPrec (ts2 ++ rest) :=
        GetTokenPrecedence_mkSt_val _ tb1 htb1
      have hstate2 := GetTokenPrecedence_mkSt_state (ts2 ++ rest) tb1
      have htb2 : EffD (GetTokenPrecedence (mkSt (ts2 ++ rest)
          tb1)).2.table := GetTokenPrecedence_mkSt_effD _ tb1 htb1
      obtain ⟨tb3, hB, htb3⟩ := (ih ts2.length hlens.2.2).2.1 ts2 (le_refl _)
        q (defaultPrec op) (Expr.binop op lhs pr) e hch2 hq rest _ htb2 hb
      refine ⟨tb3, ?_, htb3⟩
      refine evalB_step _ q lhs pr (mkSt (ts2 ++ rest) tb1) _ hnostop ?_ ?_ ?_
      · rw [hstate, getNextToken_mkSt]
        exact hP
      · rw [hv, hv2]
        have := hbd2.1
        omega
      · rw [hop, hstate2]
        exact hB
    · -- the right-hand side extends to the right of its first operator
      subst heq2
      simp only [List.cons_append, List.append_assoc]
        at hbd2 hv hnostop hstate htb0 hop ⊢
      have hnp2 : noParenHead (Tok.ch op2 ::
          (rts2x ++ (ts2x ++ (ts2 ++ rest)))) := by
        show Tok.ch op2 ≠ Tok.ch '('
        intro hcon
        have heq3 : op2 = '(' := by
          cases hcon
          rfl
        subst heq3
        have h4 := (defaultPrec_pos_op '(' (by omega)).2.2.2
        exact h4 rfl
      obtain ⟨tb1, hP, htb1⟩ := (ih prts.length hlens.1).1 prts (le_refl _)
        pr hprim (Tok.ch op2 :: (rts2x ++ (ts2x ++ (ts2 ++ rest)))) _
        htb0 hnp2
      have hv2 : (GetTokenPrecedence (mkSt (Tok.ch op2 ::
          (rts2x ++ (ts2x ++ (ts2 ++ rest)))) tb1)).1 = defaultPrec op2 := by
        rw [GetTokenPrecedence_mkSt_val _ tb1 htb1]
        rfl
      have hstate2 := GetTokenPrecedence_mkSt_state
        (Tok.ch op2 :: (rts2x ++ (ts2x ++ (ts2 ++ rest)))) tb1
      have htb2 : EffD (GetTokenPrecedence (mkSt (Tok.ch op2 ::
          (rts2x ++ (ts2x ++ (ts2 ++ rest)))) tb1)).2.table :=
        GetTokenPrecedence_mkSt_effD _ tb1 htb1
      have hbd3 : Boundary (defaultPrec op + 1) (ts2 ++ rest) :=
        ⟨by have := hbd2.1; omega, hbd2.2⟩
      obtain ⟨tb3, hB1, htb3⟩ := (ih (Tok.ch op2 ::
          (rts2x ++ ts2x)).length (by
            simp only [List.length_cons, List.length_append] at hlens ⊢
            omega)).2.1
        (Tok.ch op2 :: (rts2x ++ ts2x)) (le_refl _) (defaultPrec op + 1) 40
        pr r hrchain (by omega) (ts2 ++ rest) _ htb2 hbd3
      simp only [List.cons_append, List.append_assoc] at hB1
      obtain ⟨tb4, hB2, htb4⟩ := (ih ts2.length hlens.2.2).2.1 ts2
        (le_refl _) q (defaultPrec op) (Expr.binop op lhs r) e hch2 hq
        rest _ htb3 hb
      refine ⟨tb4, ?_, htb4⟩
      refine evalB_stepRec _ q lhs pr r
        (mkSt (Tok.ch op2 :: (rts2x ++ (ts2x ++ (ts2 ++ rest)))) tb1)
        (mkSt (ts2 ++ rest) tb3) _ hnostop ?_ ?_ ?_ ?_
      · rw [hstate, getNextToken_mkSt]
        exact hP
      · rw [hv, hv2]
        omega
      · rw [hv, hstate2]
        exact hB1
      · rw [hop]
        exact hB2

theorem part3_step (n : Nat) (h1 : Part1 n) (h2 : Part2 n) : Part3 n := by
  intro ts hlen e hr rest tb htb hb
  obtain ⟨pr, pts, cts, hprim, hchain, hsplit⟩ :=
    renders_decomp ts.length ts (le_refl _) 0 e hr
  subst hsplit
  have hl1 : pts.length ≤ n := by
    simp only [List.length_append] at hlen
    omega
  have hl2 : cts.length ≤ n := by
    simp only [List.length_append] at hlen
    omega
  have hbd := chain_boundary hchain (le_refl 0) hb (by omega)
  obtain ⟨tb1, hP, htb1⟩ := h1 pts hl1 pr hprim (cts ++ rest) tb htb hbd.2
  obtain ⟨tb2, hB, htb2⟩ := h2 cts hl2 0 40 pr e hchain (le_refl 0)
    rest tb1 htb1 hb
  refine ⟨tb2, ?_, htb2⟩
  rw [List.append_assoc]
  exact evalE_intro _ pr (mkSt (cts ++ rest) tb1) _ hP hB

theorem part4_step (n : Nat) (ih : ∀ m, m < n → CorrectUpTo m)
    (h3 : Part3 n) : Part4 n := by
  intro ts hlen es ha args rest tb htb
  rcases argsR_cases ha with ⟨e, rfl, hr⟩ |
    ⟨e, ets, es2, tss, rfl, heq, hr, ha2⟩
  · -- a single final argument, the closing parenthesis right after it
    have hbd : Boundary 0 (Tok.ch ')' :: rest) := by
      constructor
      · show tokPrecD (Tok.ch ')') < 0
        show defaultPrec ')' < 0
        rw [defaultPrec_rparen]
        omega
      · show Tok.ch ')' ≠ Tok.ch '('
        decide
    obtain ⟨tb2, hE, htb2⟩ := h3 ts hlen e hr (Tok.ch ')' :: rest)
      tb htb hbd
    exact ⟨tb2, evalA_last _ e _ args hE (mkSt_curToken_cons _ _ _), htb2⟩
  · -- an argument followed by a comma and further arguments
    subst heq
    simp only [List.cons_append, List.append_assoc]
    have hl1 : ets.length ≤ n := by
      simp only [List.length_append, List.length_cons] at hlen
      omega
    have hl2 : tss.length < n := by
      simp only [List.length_append, List.length_cons] at hlen
      omega
    have hbd : Boundary 0 (Tok.ch ',' :: (tss ++ Tok.ch ')' :: rest)) := by
      constructor
      · show tokPrecD (Tok.ch ',') < 0
        show defaultPrec ',' < 0
        rw [defaultPrec_comma]
        omega
      · show Tok.ch ',' ≠ Tok.ch '('
        decide
    obtain ⟨tb1, hE, htb1⟩ := h3 ets hl1 e hr
      (Tok.ch ',' :: (tss ++ Tok.ch ')' :: rest)) tb htb hbd
    obtain ⟨tb2, hA, htb2⟩ := (ih tss.length hl2).2.2.2 tss (le_refl _)
      es2 ha2 (args ++ [e]) rest tb1 htb1
    simp only [List.append_assoc, List.singleton_append] at hA
    refine ⟨tb2, ?_, htb2⟩
    refine evalA_cons _ e (mkSt (Tok.ch ',' ::
      (tss ++ Tok.ch ')' :: rest)) tb1) args _ hE
      (mkSt_curToken_cons _ _ _) ?_
    rw [getNextToken_mkSt]
    exact hA

theorem renders_correct : ∀ n, CorrectUpTo n := by
  intro n
  induction n using Nat.strong_induction_on with
  | _ n ih =>
    have p1 := part1_step n ih
    have p2 := part2_step n ih
    have p3 := part3_step n p1 p2
    have p4 := part4_step n ih p3
    exact ⟨p1, p2, p3, p4⟩

/-! ## Consequences at the entry point -/

/-- A fully rendered expression stream parses to exactly that expression,
consuming the whole stream, from any table with the default effective
precedences. -/
theorem renders_run (e : Expr) (ts : List Tok) (tb : List (Char × Int))
    (hr : Renders 0 e ts) (htb : EffD tb) :
    ∃ tb2, ParseExpressionRun (mkSt ts tb) =
      Except.ok (e, ⟨Tok.eof, [], tb2⟩) ∧ EffD tb2 := by
  have hbd : Boundary 0 ([] : List Tok) := by
    constructor
    · show (-1 : Int) < 0
      omega
    · trivial
  obtain ⟨tb2, hE, htb2⟩ := (renders_correct ts.length).2.2.1 ts (le_refl _)
    e hr [] tb htb hbd
  rw [List.append_nil] at hE
  exact ⟨tb2, EvalE_run _ _ hE, htb2⟩

/-- C1: on any stream rendered from literals, identifiers, the four default
operators, parentheses and calls in standard-precedence shape (`Renders 0`,
over any table with the default effective precedences), `ParseExpression`
succeeds with exactly that AST; and the two cited examples parse to
`'+'(1, '*'(2, 3))` and `'-'('-'(1, 2), 3)` — `*` binding tighter than `+`,
and `-` left-associative (`Expr.num` carries the literal's text). -/
theorem C1_parseExpression_precedence :
    (∀ e ts tb, Renders 0 e ts → EffD tb →
      ∃ tb2, ParseExpressionRun (mkSt ts tb) =
        Except.ok (e, ⟨Tok.eof, [], tb2⟩) ∧ EffD tb2) ∧
    ParseExpressionRun (parseState "1 + 2 * 3" defaultTable) =
      Except.ok (Expr.binop '+' (Expr.num "1")
        (Expr.binop '*' (Expr.num "2") (Expr.num "3")),
        ⟨Tok.eof, [], defaultTable⟩) ∧
    ParseExpressionRun (parseState "1 - 2 - 3" defaultTable) =
      Except.ok (Expr.binop '-'
        (Expr.binop '-' (Expr.num "1") (Expr.num "2")) (Expr.num "3"),
        ⟨Tok.eof, [], defaultTable⟩) :=
  ⟨renders_run, rfl, rfl⟩

/-- The general part of the statement above, at the one-token stream
`["7"]` (a numeric literal renders itself). -/
theorem C1_parseExpression_precedence_witness :
    ∃ tb2, ParseExpressionRun (mkSt [Tok.num "7"] defaultTable) =
      Except.ok (Expr.num "7", ⟨Tok.eof, [], tb2⟩) ∧ EffD tb2 :=
  C1_parseExpression_precedence.1 (Expr.num "7") [Tok.num "7"] defaultTable
    (Renders.prim 0 _ _ (PrimR.num "7")) EffD_defaultTable

/-! ## The observable table content is preserved by parsing

The only mutation of `BinOpPrecedence` during a parse is the `std::map`
subscript's value-initialising insert in `GetTokenPrecedence`, which writes
`0` — below the positivity threshold — so the effective precedence of every
character is unchanged by every parse function. -/

theorem getNextToken_table (st : PSt) :
    (getNextToken st).table = st.table := by
  cases st with
  | mk cur rest tb => cases rest <;> rfl

theorem effPrec_getNextToken (st : PSt) :
    ∀ c, effPrec (getNextToken st).table c = effPrec st.table c := by
  intro c
  rw [getNextToken_table]

theorem Parse_effPrec (f : Nat) : ∀ st : PSt, ∀ q : Int, ∀ lhs : Expr,
    ∀ s : String, ∀ args : List Expr,
    (∀ v st', ParseExpression f st = some (Except.ok (v, st')) →
      ∀ c, effPrec st'.table c = effPrec st.table c) ∧
    (∀ v st', ParsePrimary f st = some (Except.ok (v, st')) →
      ∀ c, effPrec st'.table c = effPrec st.table c) ∧
    (∀ v st', ParseParenExpr f st = some (Except.ok (v, st')) →
      ∀ c, effPrec st'.table c = effPrec st.table c) ∧
    (∀ v st', ParseIdentifierExpr s f st = some (Except.ok (v, st')) →
      ∀ c, effPrec st'.table c = effPrec st.table c) ∧
    (∀ v st', ParseArgsLoop f args st = some (Except.ok (v, st')) →
      ∀ c, effPrec st'.table c = effPrec st.table c) ∧
    (∀ v st', ParseBinOpRHS f q lhs st = some (Except.ok (v, st')) →
      ∀ c, effPrec st'.table c = effPrec st.table c) := by
  induction f with
  | zero =>
    intro st q lhs s args
    refine ⟨?_, ?_, ?_, ?_, ?_, ?_⟩ <;> exact fun v st' h => Option.noConfusion h
  | succ f ih =>
    intro st q lhs s args
    refine ⟨?_, ?_, ?_, ?_, ?_, ?_⟩
    · -- ParseExpression
      intro v st' h
      rw [ParseExpression] at h
      cases hP : ParsePrimary f st with
      | none => rw [hP] at h; exact Option.noConfusion h
      | some x =>
        rw [hP] at h
        match x, hP, h with
        | Except.error e, hP, h => exact Except.noConfusion (Option.some.inj h)
        | Except.ok (lhs1, st1), hP, h =>
          have h1 := (ih st q lhs s args).2.1 lhs1 st1 hP
          have h2 := (ih st1 0 lhs1 s args).2.2.2.2.2 v st' h
          exact fun c => (h2 c).trans (h1 c)
    · -- ParsePrimary
      intro v st' h
      rw [ParsePrimary] at h
      cases hcur : st.curToken with
      | ident s2 =>
        rw [hcur] at h
        replace h : ParseIdentifierExpr s2 f st = some (Except.ok (v, st')) := h
        exact (ih st q lhs s2 args).2.2.2.1 v st' h
      | num s2 =>
        rw [hcur] at h
        replace h : (Except.ok (Expr.num s2, getNextToken st) :
            Except String (Expr × PSt)) = Except.ok (v, st') :=
          Option.some.inj h
        obtain ⟨h1, h2⟩ := Prod.mk.inj (Except.ok.inj h)
        subst h2
        exact effPrec_getNextToken st
      | ch c =>
        rw [hcur] at h
        by_cases hc : c = '('
        · subst hc
          replace h : ParseParenExpr f st = some (Except.ok (v, st')) := by
            replace h : (if ('(' : Char) = '(' then ParseParenExpr f st
              else some (Except.error
                "unknown token when expecting an expression")) =
                some (Except.ok (v, st')) := h
            rw [if_pos rfl] at h
            exact h
          exact (ih st q lhs s args).2.2.1 v st' h
        · replace h : (if c = '(' then ParseParenExpr f st
            else some (Except.error
              "unknown token when expecting an expression")) =
              some (Except.ok (v, st')) := h
          rw [if_neg hc] at h
          exact Except.noConfusion (Option.some.inj h)
      | eof => rw [hcur] at h; exact Except.noConfusion (Option.some.inj h)
      | kwDef => rw [hcur] at h; exact Except.noConfusion (Option.some.inj h)
      | kwExt => rw [hcur] at h; exact Except.noConfusion (Option.some.inj h)
    · -- ParseParenExpr
      intro v st' h
      rw [ParseParenExpr] at h
      cases hE : ParseExpression f (getNextToken st) with
      | none => rw [hE] at h; exact Option.noConfusion h
      | some x =>
        rw [hE] at h
        match x, hE, h with
        | Except.error e, hE, h => exact Except.noConfusion (Option.some.inj h)
        | Except.ok (v1, st1), hE, h =>
          replace h : (if st1.curToken = Tok.ch ')' then
              some (Except.ok (v1, getNextToken st1))
            else some (Except.error "expected ')'")) =
              some (Except.ok (v, st')) := h
          by_cases h1 : st1.curToken = Tok.ch ')'
          · rw [if_pos h1] at h
            obtain ⟨h2, h3⟩ := Prod.mk.inj (Except.ok.inj (Option.some.inj h))
            subst h3
            have h4 := (ih (getNextToken st) 0 lhs s args).1 v1 st1 hE
            exact fun c => (effPrec_getNextToken st1 c).trans
              ((h4 c).trans (effPrec_getNextToken st c))
          · rw [if_neg h1] at h
            exact Except.noConfusion (Option.some.inj h)
    · -- ParseIdentifierExpr
      intro v st' h
      rw [ParseIdentifierExpr] at h
      by_cases h1 : (getNextToken st).curToken ≠ Tok.ch '('
      · rw [if_pos h1] at h
        obtain ⟨h2, h3⟩ := Prod.mk.inj (Except.ok.inj (Option.some.inj h))
        subst h3
        exact effPrec_getNextToken st
      · rw [if_neg h1] at h
        by_cases h2 : (getNextToken (getNextToken st)).curToken = Tok.ch ')'
        · rw [if_pos h2] at h
          obtain ⟨h3, h4⟩ := Prod.mk.inj (Except.ok.inj (Option.some.inj h))
          subst h4
          exact fun c =>
            (effPrec_getNextToken (getNextToken (getNextToken st)) c).trans
              ((effPrec_getNextToken (getNextToken st) c).trans
                (effPrec_getNextToken st c))
        · rw [if_neg h2] at h
          cases hA : ParseArgsLoop f [] (getNextToken (getNextToken st)) with
          | none => rw [hA] at h; exact Option.noConfusion h
          | some x =>
            rw [hA] at h
            match x, hA, h with
            | Except.error e, hA, h =>
              exact Except.noConfusion (Option.some.inj h)
            | Except.ok (args1, st3), hA, h =>
              obtain ⟨h3, h4⟩ :=
                Prod.mk.inj (Except.ok.inj (Option.some.inj h))
              subst h4
              have h5 := (ih (getNextToken (getNextToken st)) q lhs s
                []).2.2.2.2.1 args1 st3 hA
              exact fun c => (effPrec_getNextToken st3 c).trans
                (((h5 c).trans
                  (effPrec_getNextToken (getNextToken st) c)).trans
                  (effPrec_getNextToken st c))
    · -- ParseArgsLoop
      intro v st' h
      rw [ParseArgsLoop] at h
      cases hE : ParseExpression f st with
      | none => rw [hE] at h; exact Option.noConfusion h
      | some x =>
        rw [hE] at h
        match x, hE, h with
        | Except.error e, hE, h => exact Except.noConfusion (Option.some.inj h)
        | Except.ok (arg, st1), hE, h =>
          have h0 := (ih st 0 lhs s args).1 arg st1 hE
          replace h : (if st1.curToken = Tok.ch ')' then
              some (Except.ok (args ++ [arg], st1))
            else if st1.curToken ≠ Tok.ch ',' then
              some (Except.error "expected ')' or ',' in argument list")
            else ParseArgsLoop f (args ++ [arg]) (getNextToken st1)) =
              some (Except.ok (v, st')) := h
          by_cases h1 : st1.curToken = Tok.ch ')'
          · rw [if_pos h1] at h
            obtain ⟨h2, h3⟩ := Prod.mk.inj (Except.ok.inj (Option.some.inj h))
            subst h3
            exact h0
          · rw [if_neg h1] at h
            by_cases h2 : st1.curToken ≠ Tok.ch ','
            · rw [if_pos h2] at h
              exact Except.noConfusion (Option.some.inj h)
            · rw [if_neg h2] at h
              have h3 := (ih (getNextToken st1) q lhs s
                (args ++ [arg])).2.2.2.2.1 v st' h
              exact fun c => ((h3 c).trans
                (effPrec_getNextToken st1 c)).trans (h0 c)
    · -- ParseBinOpRHS
      intro v st' h
      rw [ParseBinOpRHS] at h
      by_cases h1 : (GetTokenPrecedence st).1 < q
      · rw [if_pos h1] at h
        obtain ⟨h2, h3⟩ := Prod.mk.inj (Except.ok.inj (Option.some.inj h))
        subst h3
        exact GetTokenPrecedence_effPrec st
      · rw [if_neg h1] at h
        have e1 : ∀ c, effPrec (getNextToken (GetTokenPrecedence st).2).table
            c = effPrec st.table c := fun c =>
          (effPrec_getNextToken (GetTokenPrecedence st).2 c).trans
            (GetTokenPrecedence_effPrec st c)
        cases hP : ParsePrimary f (getNextToken (GetTokenPrecedence st).2) with
        | none => rw [hP] at h; exact Option.noConfusion h
        | some x =>
          rw [hP] at h
          match x, hP, h with
          | Except.error e, hP, h => exact Except.noConfusion (Option.some.inj h)
          | Except.ok (rhs, st2), hP, h =>
            have h2 := (ih (getNextToken (GetTokenPrecedence st).2) q lhs s
              args).2.1 rhs st2 hP
            have e2 : ∀ c, effPrec (GetTokenPrecedence st2).2.table c =
                effPrec st.table c := fun c =>
              (GetTokenPrecedence_effPrec st2 c).trans ((h2 c).trans (e1 c))
            replace h : (if (GetTokenPrecedence st).1 <
                (GetTokenPrecedence st2).1 then
                match ParseBinOpRHS f ((GetTokenPrecedence st).1 + 1) rhs
                    (GetTokenPrecedence st2).2 with
                | none => none
                | some (Except.error e) => some (Except.error e)
                | some (Except.ok (rhs2, st4)) =>
                  ParseBinOpRHS f q
                    (Expr.binop (tokAsOp (GetTokenPrecedence st).2.curToken)
                      lhs rhs2) st4
              else
                ParseBinOpRHS f q
                  (Expr.binop (tokAsOp (GetTokenPrecedence st).2.curToken)
                    lhs rhs) (GetTokenPrecedence st2).2) =
                some (Except.ok (v, st')) := h
            by_cases h3 : (GetTokenPrecedence st).1 < (GetTokenPrecedence st2).1
            · rw [if_pos h3] at h
              cases hB : ParseBinOpRHS f ((GetTokenPrecedence st).1 + 1) rhs
                  (GetTokenPrecedence st2).2 with
              | none => rw [hB] at h; exact Option.noConfusion h
              | some y =>
                rw [hB] at h
                match y, hB, h with
                | Except.error e, hB, h =>
                  exact Except.noConfusion (Option.some.inj h)
                | Except.ok (rhs2, st4), hB, h =>
                  have h4 := (ih (GetTokenPrecedence st2).2
                    ((GetTokenPrecedence st).1 + 1) rhs s args).2.2.2.2.2
                    rhs2 st4 hB
                  have h5 := (ih st4 q
                    (Expr.binop (tokAsOp (GetTokenPrecedence st).2.curToken)
                      lhs rhs2) s args).2.2.2.2.2 v st' h
                  exact fun c => (h5 c).trans ((h4 c).trans (e2 c))
            · rw [if_neg h3] at h
              have h4 := (ih (GetTokenPrecedence st2).2 q
                (Expr.binop (tokAsOp (GetTokenPrecedence st).2.curToken)
                  lhs rhs) s args).2.2.2.2.2 v st' h
              exact fun c => (h4 c).trans (e2 c)

/-! ## C3: what really happens to the operator table -/

theorem ParseExpressionRun_ok (st : PSt) (e : Expr) (st' : PSt)
    (h : ParseExpressionRun st = Except.ok (e, st')) :
    ParseExpression (4 * muP st + 5) st = some (Except.ok (e, st')) := by
  rw [ParseExpressionRun] at h
  cases hE : ParseExpression (4 * muP st + 5) st with
  | none => rw [hE] at h; exact Except.noConfusion h
  | some x =>
    rw [hE, Option.getD_some] at h
    rw [h]

/-- C3, counterexample: the operator table is NOT left unchanged by a
parse. Parsing `"(1)"` runs `GetTokenPrecedence` with `CurToken = ')'`,
and the `std::map` subscript `BinOpPrecedence[CurToken]` value-initialises
the absent key: the session ends with a new entry `(')', 0)` in the
table. -/
theorem C3_table_mutated_counterexample :
    ParseExpressionRun (parseState "(1)" defaultTable) =
      Except.ok (Expr.num "1", ⟨Tok.eof, [],
        [(')', 0), ('*', 40), ('+', 20), ('-', 20), ('<', 10)]⟩) ∧
    ([(')', 0), ('*', 40), ('+', 20), ('-', 20), ('<', 10)] :
      List (Char × Int)) ≠ defaultTable :=
  ⟨rfl, by decide⟩

/-- C3, amended: precedence queries can add entries (always with value
`0`, for absent ASCII keys), but they never remove or modify an existing
entry's observable content: the effective precedence of every character —
the table entry when positive, else the −1 sentinel — is unchanged by
`GetTokenPrecedence` and by every complete `ParseExpression` session. -/
theorem C3_effective_precedences_unchanged :
    (∀ st c, effPrec (GetTokenPrecedence st).2.table c =
      effPrec st.table c) ∧
    (∀ st e st', ParseExpressionRun st = Except.ok (e, st') →
      ∀ c, effPrec st'.table c = effPrec st.table c) :=
  ⟨GetTokenPrecedence_effPrec, fun st e st' h =>
    (Parse_effPrec (4 * muP st + 5) st 0 (Expr.num "") "" []).1 e st'
      (ParseExpressionRun_ok st e st' h)⟩

/-- The amended statement at the parse of `"(1)"`: the table gained an
entry, but every effective precedence is as before. -/
theorem C3_effective_precedences_unchanged_witness :
    ∀ c, effPrec (⟨Tok.eof, [],
      [(')', 0), ('*', 40), ('+', 20), ('-', 20), ('<', 10)]⟩ :
        PSt).table c =
      effPrec (parseState "(1)" defaultTable).table c :=
  C3_effective_precedences_unchanged.2 (parseState "(1)" defaultTable)
    (Expr.num "1") _ rfl

/-! ## C2: every operator in a parsed AST is registered and positive -/

mutual

/-- Every `binop` node's operator character has positive effective
precedence in the table `tb` (it is a registered entry with value > 0). -/
inductive OpsOk (tb : List (Char × Int)) : Expr → Prop where
  | num : ∀ s, OpsOk tb (Expr.num s)
  | var : ∀ s, OpsOk tb (Expr.var s)
  | binop : ∀ c l r, 0 < effPrec tb c → OpsOk tb l → OpsOk tb r →
      OpsOk tb (Expr.binop c l r)
  | call : ∀ s as, OpsOkA tb as → OpsOk tb (Expr.call s as)

inductive OpsOkA (tb : List (Char × Int)) : List Expr → Prop where
  | nil : OpsOkA tb []
  | cons : ∀ e es, OpsOk tb e → OpsOkA tb es → OpsOkA tb (e :: es)

end

theorem opsOk_congr (n : Nat) : ∀ tb1 tb2 : List (Char × Int),
    (∀ c, effPrec tb1 c = effPrec tb2 c) →
    (∀ e : Expr, sizeOf e ≤ n → OpsOk tb1 e → OpsOk tb2 e) ∧
    (∀ es : List Expr, sizeOf es ≤ n → OpsOkA tb1 es → OpsOkA tb2 es) := by
  induction n using Nat.strong_induction_on with
  | _ n ih =>
    intro tb1 tb2 hff
    constructor
    · intro e hlen h
      cases h with
      | num s => exact OpsOk.num s
      | var s => exact OpsOk.var s
      | binop c l r hp hl hr =>
        have hsz : 1 + sizeOf c + sizeOf l + sizeOf r ≤ n := by
          simpa using hlen
        exact OpsOk.binop c l r (by rw [← hff c]; exact hp)
          ((ih (sizeOf l) (by omega) tb1 tb2 hff).1 l (le_refl _) hl)
          ((ih (sizeOf r) (by omega) tb1 tb2 hff).1 r (le_refl _) hr)
      | call s as ha =>
        have hsz : 1 + sizeOf s + sizeOf as ≤ n := by
          simpa using hlen
        exact OpsOk.call s as
          ((ih (sizeOf as) (by omega) tb1 tb2 hff).2 as (le_refl _) ha)
    · intro es hlen h
      cases h with
      | nil => exact OpsOkA.nil
      | cons e es2 he hes =>
        have hsz : 1 + sizeOf e + sizeOf es2 ≤ n := by
          simpa using hlen
        exact OpsOkA.cons e es2
          ((ih (sizeOf e) (by omega) tb1 tb2 hff).1 e (le_refl _) he)
          ((ih (sizeOf es2) (by omega) tb1 tb2 hff).2 es2 (le_refl _) hes)

theorem opsOk_transfer (tb1 tb2 : List (Char × Int))
    (h : ∀ c, effPrec tb1 c = effPrec tb2 c) (e : Expr) :
    OpsOk tb1 e → OpsOk tb2 e :=
  (opsOk_congr (sizeOf e) tb1 tb2 h).1 e (le_refl _)

theorem opsOkA_transfer (tb1 tb2 : List (Char × Int))
    (h : ∀ c, effPrec tb1 c = effPrec tb2 c) (es : List Expr) :
    OpsOkA tb1 es → OpsOkA tb2 es :=
  (opsOk_congr (sizeOf es) tb1 tb2 h).2 es (le_refl _)

theorem opsOkA_snoc (tb : List (Char × Int)) : ∀ args : List Expr,
    OpsOkA tb args → ∀ a, OpsOk tb a → OpsOkA tb (args ++ [a]) := by
  intro args
  induction args with
  | nil =>
    intro _ a ha
    exact OpsOkA.cons a [] ha OpsOkA.nil
  | cons e es ihe =>
    intro h a ha
    cases h with
    | cons e es he hes => exact OpsOkA.cons e (es ++ [a]) he (ihe hes a ha)

theorem Parse_opsOk (f : Nat) : ∀ st : PSt, ∀ q : Int, ∀ lhs : Expr,
    ∀ s : String, ∀ args : List Expr,
    (∀ v st', ParseExpression f st = some (Except.ok (v, st')) →
      OpsOk st.table v) ∧
    (∀ v st', ParsePrimary f st = some (Except.ok (v, st')) →
      OpsOk st.table v) ∧
    (∀ v st', ParseParenExpr f st = some (Except.ok (v, st')) →
      OpsOk st.table v) ∧
    (∀ v st', ParseIdentifierExpr s f st = some (Except.ok (v, st')) →
      OpsOk st.table v) ∧
    (∀ vs st', ParseArgsLoop f args st = some (Except.ok (vs, st')) →
      OpsOkA st.table args → OpsOkA st.table vs) ∧
    (∀ v st', ParseBinOpRHS f q lhs st = some (Except.ok (v, st')) →
      0 ≤ q → OpsOk st.table lhs → OpsOk st.table v) := by
  induction f with
  | zero =>
    intro st q lhs s args
    refine ⟨?_, ?_, ?_, ?_, ?_, ?_⟩ <;> exact fun v st' h => Option.noConfusion h
  | succ f ih =>
    intro st q lhs s args
    refine ⟨?_, ?_, ?_, ?_, ?_, ?_⟩
    · -- ParseExpression
      intro v st' h
      rw [ParseExpression] at h
      cases hP : ParsePrimary f st with
      | none => rw [hP] at h; exact Option.noConfusion h
      | some x =>
        rw [hP] at h
        match x, hP, h with
        | Except.error e, hP, h => exact Except.noConfusion (Option.some.inj h)
        | Except.ok (lhs1, st1), hP, h =>
          have h1 := (ih st q lhs s args).2.1 lhs1 st1 hP
          have hE1 := (Parse_effPrec f st q lhs s args).2.1 lhs1 st1 hP
          have h2 := (ih st1 0 lhs1 s args).2.2.2.2.2 v st' h (le_refl 0)
            (opsOk_transfer st.table st1.table (fun c => (hE1 c).symm)
              lhs1 h1)
          exact opsOk_transfer st1.table st.table hE1 v h2
    · -- ParsePrimary
      intro v st' h
      rw [ParsePrimary] at h
      cases hcur : st.curToken with
      | ident s2 =>
        rw [hcur] at h
        replace h : ParseIdentifierExpr s2 f st = some (Except.ok (v, st')) := h
        exact (ih st q lhs s2 args).2.2.2.1 v st' h
      | num s2 =>
        rw [hcur] at h
        replace h : (Except.ok (Expr.num s2, getNextToken st) :
            Except String (Expr × PSt)) = Except.ok (v, st') :=
          Option.some.inj h
        obtain ⟨h1, h2⟩ := Prod.mk.inj (Except.ok.inj h)
        rw [← h1]
        exact OpsOk.num s2
      | ch c =>
        rw [hcur] at h
        by_cases hc : c = '('
        · subst hc
          replace h : ParseParenExpr f st = some (Except.ok (v, st')) := by
            replace h : (if ('(' : Char) = '(' then ParseParenExpr f st
              else some (Except.error
                "unknown token when expecting an expression")) =
                some (Except.ok (v, st')) := h
            rw [if_pos rfl] at h
            exact h
          exact (ih st q lhs s args).2.2.1 v st' h
        · replace h : (if c = '(' then ParseParenExpr f st
            else some (Except.error
              "unknown token when expecting an expression")) =
              some (Except.ok (v, st')) := h
          rw [if_neg hc] at h
          exact Except.noConfusion (Option.some.inj h)
      | eof => rw [hcur] at h; exact Except.noConfusion (Option.some.inj h)
      | kwDef => rw [hcur] at h; exact Except.noConfusion (Option.some.inj h)
      | kwExt => rw [hcur] at h; exact Except.noConfusion (Option.some.inj h)
    · -- ParseParenExpr
      intro v st' h
      rw [ParseParenExpr] at h
      cases hE : ParseExpression f (getNextToken st) with
      | none => rw [hE] at h; exact Option.noConfusion h
      | some x =>
        rw [hE] at h
        match x, hE, h with
        | Except.error e, hE, h => exact Except.noConfusion (Option.some.inj h)
        | Except.ok (v1, st1), hE, h =>
          replace h : (if st1.curToken = Tok.ch ')' then
              some (Except.ok (v1, getNextToken st1))
            else some (Except.error "expected ')'")) =
              some (Except.ok (v, st')) := h
          by_cases h1 : st1.curToken = Tok.ch ')'
          · rw [if_pos h1] at h
            obtain ⟨h2, h3⟩ := Prod.mk.inj (Except.ok.inj (Option.some.inj h))
            have h4 := (ih (getNextToken st) 0 lhs s args).1 v1 st1 hE
            rw [getNextToken_table] at h4
            rw [← h2]
            exact h4
          · rw [if_neg h1] at h
            exact Except.noConfusion (Option.some.inj h)
    · -- ParseIdentifierExpr
      intro v st' h
      rw [ParseIdentifierExpr] at h
      by_cases h1 : (getNextToken st).curToken ≠ Tok.ch '('
      · rw [if_pos h1] at h
        obtain ⟨h2, h3⟩ := Prod.mk.inj (Except.ok.inj (Option.some.inj h))
        rw [← h2]
        exact OpsOk.var s
      · rw [if_neg h1] at h
        by_cases h2 : (getNextToken (getNextToken st)).curToken = Tok.ch ')'
        · rw [if_pos h2] at h
          obtain ⟨h3, h4⟩ := Prod.mk.inj (Except.ok.inj (Option.some.inj h))
          rw [← h3]
          exact OpsOk.call s [] OpsOkA.nil
        · rw [if_neg h2] at h
          cases hA : ParseArgsLoop f [] (getNextToken (getNextToken st)) with
          | none => rw [hA] at h; exact Option.noConfusion h
          | some x =>
            rw [hA] at h
            match x, hA, h with
            | Except.error e, hA, h =>
              exact Except.noConfusion (Option.some.inj h)
            | Except.ok (args1, st3), hA, h =>
              obtain ⟨h3, h4⟩ :=
                Prod.mk.inj (Except.ok.inj (Option.some.inj h))
              have h5 := (ih (getNextToken (getNextToken st)) q lhs s
                []).2.2.2.2.1 args1 st3 hA OpsOkA.nil
              rw [getNextToken_table, getNextToken_table] at h5
              rw [← h3]
              exact OpsOk.call s args1 h5
    · -- ParseArgsLoop
      intro vs st' h
      rw [ParseArgsLoop] at h
      intro hargs
      cases hE : ParseExpression f st with
      | none => rw [hE] at h; exact Option.noConfusion h
      | some x =>
        rw [hE] at h
        match x, hE, h with
        | Except.error e, hE, h => exact Except.noConfusion (Option.some.inj h)
        | Except.ok (arg, st1), hE, h =>
          have h0 := (ih st 0 lhs s args).1 arg st1 hE
          have hE1 := (Parse_effPrec f st 0 lhs s args).1 arg st1 hE
          replace h : (if st1.curToken = Tok.ch ')' then
              some (Except.ok (args ++ [arg], st1))
            else if st1.curToken ≠ Tok.ch ',' then
              some (Except.error "expected ')' or ',' in argument list")
            else ParseArgsLoop f (args ++ [arg]) (getNextToken st1)) =
              some (Except.ok (vs, st')) := h
          by_cases h1 : st1.curToken = Tok.ch ')'
          · rw [if_pos h1] at h
            obtain ⟨h2, h3⟩ := Prod.mk.inj (Except.ok.inj (Option.some.inj h))
            rw [← h2]
            exact opsOkA_snoc st.table args hargs arg h0
          · rw [if_neg h1] at h
            by_cases h2 : st1.curToken ≠ Tok.ch ','
            · rw [if_pos h2] at h
              exact Except.noConfusion (Option.some.inj h)
            · rw [if_neg h2] at h
              have hsn : OpsOkA (getNextToken st1).table (args ++ [arg]) := by
                rw [getNextToken_table]
                exact opsOkA_transfer st.table st1.table
                  (fun c => (hE1 c).symm) (args ++ [arg])
                  (opsOkA_snoc st.table args hargs arg h0)
              have h3 := (ih (getNextToken st1) q lhs s
                (args ++ [arg])).2.2.2.2.1 vs st' h hsn
              rw [getNextToken_table] at h3
              exact opsOkA_transfer st1.table st.table hE1 vs h3
    · -- ParseBinOpRHS
      intro v st' h hq hlhs
      rw [ParseBinOpRHS] at h
      by_cases h1 : (GetTokenPrecedence st).1 < q
      · rw [if_pos h1] at h
        obtain ⟨h2, h3⟩ := Prod.mk.inj (Except.ok.inj (Option.some.inj h))
        rw [← h2]
        exact hlhs
      · rw [if_neg h1] at h
        rcases GetTokenPrecedence_spec st with hneg |
          ⟨hge1, c0, hcur0, heff0, hstu⟩
        · omega
        · have hpos : 0 < effPrec st.table c0 := by omega
          rw [hstu] at h
          have hopc : tokAsOp st.curToken = c0 := by
            rw [hcur0]
            rfl
          cases hP : ParsePrimary f (getNextToken st) with
          | none => rw [hP] at h; exact Option.noConfusion h
          | some x =>
            rw [hP] at h
            match x, hP, h with
            | Except.error e, hP, h =>
              exact Except.noConfusion (Option.some.inj h)
            | Except.ok (rhs, st2), hP, h =>
              have hrhs0 : OpsOk st.table rhs := by
                have h2 := (ih (getNextToken st) q lhs s args).2.1 rhs st2 hP
                rw [getNextToken_table] at h2
                exact h2
              have est2 : ∀ c, effPrec st2.table c = effPrec st.table c := by
                intro c
                have h2 := (Parse_effPrec f (getNextToken st) q lhs s
                  args).2.1 rhs st2 hP c
                rw [getNextToken_table] at h2
                exact h2
              have eg2 : ∀ c, effPrec (GetTokenPrecedence st2).2.table c =
                  effPrec st.table c := fun c =>
                (GetTokenPrecedence_effPrec st2 c).trans (est2 c)
              replace h : (if (GetTokenPrecedence st).1 <
                  (GetTokenPrecedence st2).1 then
                  match ParseBinOpRHS f ((GetTokenPrecedence st).1 + 1) rhs
                      (GetTokenPrecedence st2).2 with
                  | none => none
                  | some (Except.error e) => some (Except.error e)
                  | some (Except.ok (rhs2, st4)) =>
                    ParseBinOpRHS f q
                      (Expr.binop (tokAsOp st.curToken) lhs rhs2) st4
                else
                  ParseBinOpRHS f q
                    (Expr.binop (tokAsOp st.curToken) lhs rhs)
                    (GetTokenPrecedence st2).2) =
                  some (Except.ok (v, st')) := h
              by_cases h3 : (GetTokenPrecedence st).1 <
                  (GetTokenPrecedence st2).1
              · rw [if_pos h3] at h
                cases hB : ParseBinOpRHS f ((GetTokenPrecedence st).1 + 1)
                    rhs (GetTokenPrecedence st2).2 with
                | none => rw [hB] at h; exact Option.noConfusion h
                | some y =>
                  rw [hB] at h
                  match y, hB, h with
                  | Except.error e, hB, h =>
                    exact Except.noConfusion (Option.some.inj h)
                  | Except.ok (rhs2, st4), hB, h =>
                    have h4 := (ih (GetTokenPrecedence st2).2
                      ((GetTokenPrecedence st).1 + 1) rhs s args).2.2.2.2.2
                      rhs2 st4 hB (by omega)
                      (opsOk_transfer st.table (GetTokenPrecedence st2).2.table
                        (fun c => (eg2 c).symm) rhs hrhs0)
                    have e4 : ∀ c, effPrec st4.table c =
                        effPrec st.table c := fun c =>
                      ((Parse_effPrec f (GetTokenPrecedence st2).2
                        ((GetTokenPrecedence st).1 + 1) rhs s
                        args).2.2.2.2.2 rhs2 st4 hB c).trans (eg2 c)
                    have hbin : OpsOk st4.table
                        (Expr.binop (tokAsOp st.curToken) lhs rhs2) := by
                      rw [hopc]
                      exact OpsOk.binop c0 lhs rhs2
                        (by rw [e4 c0]; exact hpos)
                        (opsOk_transfer st.table st4.table
                          (fun c => (e4 c).symm) lhs hlhs)
                        (opsOk_transfer (GetTokenPrecedence st2).2.table
                          st4.table (fun c => ((Parse_effPrec f
                            (GetTokenPrecedence st2).2
                            ((GetTokenPrecedence st).1 + 1) rhs s
                            args).2.2.2.2.2 rhs2 st4 hB c).symm) rhs2 h4)
                    have h5 := (ih st4 q
                      (Expr.binop (tokAsOp st.curToken) lhs rhs2) s
                      args).2.2.2.2.2 v st' h hq hbin
                    have e5 : ∀ c, effPrec st'.table c =
                        effPrec st.table c := fun c =>
                      ((Parse_effPrec f st4 q
                        (Expr.binop (tokAsOp st.curToken) lhs rhs2) s
                        args).2.2.2.2.2 v st' h c).trans (e4 c)
                    exact opsOk_transfer st4.table st.table e4 v h5
              · rw [if_neg h3] at h
                have hbin : OpsOk (GetTokenPrecedence st2).2.table
                    (Expr.binop (tokAsOp st.curToken) lhs rhs) := by
                  rw [hopc]
                  exact OpsOk.binop c0 lhs rhs
                    (by rw [eg2 c0]; exact hpos)
                    (opsOk_transfer st.table (GetTokenPrecedence st2).2.table
                      (fun c => (eg2 c).symm) lhs hlhs)
                    (opsOk_transfer st.table (GetTokenPrecedence st2).2.table
                      (fun c => (eg2 c).symm) rhs hrhs0)
                have h4 := (ih (GetTokenPrecedence st2).2 q
                  (Expr.binop (tokAsOp st.curToken) lhs rhs) s
                  args).2.2.2.2.2 v st' h hq hbin
                exact opsOk_transfer (GetTokenPrecedence st2).2.table
                  st.table eg2 v h4

theorem ParseTopLevelExprRun_ok (st : PSt) (fn : Func) (st' : PSt)
    (h : ParseTopLevelExprRun st = Except.ok (fn, st')) :
    ParseTopLevelExpr (4 * muP st + 5) st = some (Except.ok (fn, st')) := by
  rw [ParseTopLevelExprRun] at h
  cases hE : ParseTopLevelExpr (4 * muP st + 5) st with
  | none => rw [hE] at h; exact Except.noConfusion h
  | some x =>
    rw [hE, Option.getD_some] at h
    rw [h]

theorem ParseTopLevelExpr_inv (f : Nat) (st : PSt) (fn : Func) (st' : PSt)
    (h : ParseTopLevelExpr f st = some (Except.ok (fn, st'))) :
    ParseExpression f st = some (Except.ok (fn.body, st')) ∧
      fn.proto = ⟨"__anon_expr", []⟩ := by
  rw [ParseTopLevelExpr] at h
  cases hE : ParseExpression f st with
  | none => rw [hE] at h; exact Option.noConfusion h
  | some x =>
    rw [hE] at h
    match x, hE, h with
    | Except.error e, hE, h => exact Except.noConfusion (Option.some.inj h)
    | Except.ok (e, st1), hE, h =>
      obtain ⟨h2, h3⟩ := Prod.mk.inj (Except.ok.inj (Option.some.inj h))
      subst h3
      rw [← h2]
      exact ⟨rfl, rfl⟩

/-- C2: every `binop` node of an AST produced by a successful parse
carries an operator whose effective precedence in the table at the start
of the parse is strictly positive — i.e. the character is registered with
precedence > 0 (`ParseBinOpRHS` builds a node only after
`GetTokenPrecedence` returned at least the minimum precedence, which is
never below 1 on any reachable path). -/
theorem C2_parsed_binops_registered_positive :
    (∀ st e st', ParseExpressionRun st = Except.ok (e, st') →
      OpsOk st.table e) ∧
    (∀ st fn st', ParseTopLevelExprRun st = Except.ok (fn, st') →
      OpsOk st.table fn.body) := by
  constructor
  · intro st e st' h
    exact (Parse_opsOk (4 * muP st + 5) st 0 (Expr.num "") "" []).1 e st'
      (ParseExpressionRun_ok st e st' h)
  · intro st fn st' h
    exact (Parse_opsOk (4 * muP st + 5) st 0 (Expr.num "") "" []).1
      fn.body st'
      (ParseTopLevelExpr_inv _ st fn st' (ParseTopLevelExprRun_ok st fn st' h)).1

/-- The invariant at the parse of `1 + 2`. -/
theorem C2_parsed_binops_registered_positive_witness :
    OpsOk (mkSt [Tok.num "1", Tok.ch '+', Tok.num "2"]
        defaultTable).table
      (Expr.binop '+' (Expr.num "1") (Expr.num "2")) :=
  C2_parsed_binops_registered_positive.1
    (mkSt [Tok.num "1", Tok.ch '+', Tok.num "2"] defaultTable)
    (Expr.binop '+' (Expr.num "1") (Expr.num "2"))
    ⟨Tok.eof, [], defaultTable⟩ rfl

/-! ## C4: prototypes — whitespace-separated parameter names -/

theorem protoArgsLoop_run : ∀ (params : List String) (fuel : Nat)
    (acc : List String) (t t0 : Tok) (rest : List Tok)
    (tb : List (Char × Int)), (∀ s, t0 ≠ Tok.ident s) →
    params.length < fuel →
    ProtoArgsLoopF fuel acc ⟨t, params.map Tok.ident ++ t0 :: rest, tb⟩ =
      (acc ++ params, ⟨t0, rest, tb⟩) := by
  intro params
  induction params with
  | nil =>
    intro fuel acc t t0 rest tb ht0 hfuel
    cases fuel with
    | zero => omega
    | succ f =>
      simp only [List.map_nil, List.nil_append, List.append_nil]
      cases t0 with
      | ident s => exact absurd rfl (ht0 s)
      | eof => rfl
      | kwDef => rfl
      | kwExt => rfl
      | num s => rfl
      | ch c => rfl
  | cons p ps ihp =>
    intro fuel acc t t0 rest tb ht0 hfuel
    cases fuel with
    | zero => simp at hfuel
    | succ f =>
      have hstep : ProtoArgsLoopF (f + 1) acc
          ⟨t, (p :: ps).map Tok.ident ++ t0 :: rest, tb⟩ =
          ProtoArgsLoopF f (acc ++ [p])
            ⟨Tok.ident p, ps.map Tok.ident ++ t0 :: rest, tb⟩ := rfl
      rw [hstep, ihp f (acc ++ [p]) (Tok.ident p) t0 rest tb ht0
        (by simp at hfuel ⊢; omega)]
      simp

theorem ParsePrototype_unfold (fn : String) (tail : List Tok)
    (tb : List (Char × Int)) :
    ParsePrototype ⟨Tok.ident fn, Tok.ch '(' :: tail, tb⟩ =
    (if (Tok.ch '(' : Tok) ≠ Tok.ch '(' then
      Except.error "Expected '(' in prototype"
    else if (ProtoArgsLoopF (tail.length + 1) []
        ⟨Tok.ch '(', tail, tb⟩).2.curToken ≠ Tok.ch ')' then
      Except.error "Expected ')' in prototype"
    else
      Except.ok (⟨fn, (ProtoArgsLoopF (tail.length + 1) []
          ⟨Tok.ch '(', tail, tb⟩).1⟩,
        getNextToken (ProtoArgsLoopF (tail.length + 1) []
          ⟨Tok.ch '(', tail, tb⟩).2)) :=
  rfl

/-- C4: `ParsePrototype` accepts a name, `'('`, parameter names separated
by nothing but lexical whitespace, and `')'`, yielding the name and the
parameters in source order; a non-identifier token (such as a comma)
before the `')'` fails with "Expected ')' in prototype", a missing leading
name with "Expected function name in prototype". In particular
`"foo(a b c)"` yields `⟨"foo", ["a", "b", "c"]⟩` and `"foo(a, b)"` is
rejected. -/
theorem C4_parsePrototype :
    (∀ (fn : String) (params : List String) (rest : List Tok)
        (tb : List (Char × Int)),
      ParsePrototype (mkSt (Tok.ident fn :: Tok.ch '(' ::
        (params.map Tok.ident ++ Tok.ch ')' :: rest)) tb) =
      Except.ok (⟨fn, params⟩, mkSt rest tb)) ∧
    (∀ (fn : String) (params : List String) (t : Tok) (rest : List Tok)
        (tb : List (Char × Int)),
      (∀ s2, t ≠ Tok.ident s2) → t ≠ Tok.ch ')' →
      ParsePrototype (mkSt (Tok.ident fn :: Tok.ch '(' ::
        (params.map Tok.ident ++ t :: rest)) tb) =
      Except.error "Expected ')' in prototype") ∧
    (∀ st, (∀ s2, st.curToken ≠ Tok.ident s2) →
      ParsePrototype st =
        Except.error "Expected function name in prototype") ∧
    ParsePrototype (mkSt (tokenize "foo(a b c)") defaultTable) =
      Except.ok (⟨"foo", ["a", "b", "c"]⟩, ⟨Tok.eof, [], defaultTable⟩) ∧
    ParsePrototype (mkSt (tokenize "foo(a, b)") defaultTable) =
      Except.error "Expected ')' in prototype" := by
  refine ⟨?_, ?_, ?_, rfl, rfl⟩
  · intro fn params rest tb
    rw [show mkSt (Tok.ident fn :: Tok.ch '(' ::
        (params.map Tok.ident ++ Tok.ch ')' :: rest)) tb =
        ⟨Tok.ident fn, Tok.ch '(' ::
          (params.map Tok.ident ++ Tok.ch ')' :: rest), tb⟩ from rfl,
      ParsePrototype_unfold, if_neg (fun hc => hc rfl),
      protoArgsLoop_run params _ [] (Tok.ch '(') (Tok.ch ')') rest tb
        (fun s h => Tok.noConfusion h)
        (by simp only [List.length_append, List.length_map,
              List.length_cons]
            omega)]
    rw [if_neg (fun hc => hc rfl)]
    simp only [List.nil_append]
    show Except.ok (⟨fn, params⟩, getNextToken
        (mkSt (Tok.ch ')' :: rest) tb)) =
      (Except.ok (⟨fn, params⟩, mkSt rest tb) :
        Except String (Prototype × PSt))
    rw [getNextToken_mkSt]
  · intro fn params t rest tb ht hne
    rw [show mkSt (Tok.ident fn :: Tok.ch '(' ::
        (params.map Tok.ident ++ t :: rest)) tb =
        ⟨Tok.ident fn, Tok.ch '(' ::
          (params.map Tok.ident ++ t :: rest), tb⟩ from rfl,
      ParsePrototype_unfold, if_neg (fun hc => hc rfl),
      protoArgsLoop_run params _ [] (Tok.ch '(') t rest tb ht
        (by simp only [List.length_append, List.length_map,
              List.length_cons]
            omega)]
    rw [if_pos hne]
  · intro st hcur
    cases st with
    | mk cur rest tb =>
      cases cur with
      | ident s2 => exact absurd rfl (hcur s2)
      | eof => rfl
      | kwDef => rfl
      | kwExt => rfl
      | num s2 => rfl
      | ch c => rfl

/-- The general conjuncts of the statement above at the streams of
`g(x y)` and `g(x , y)` (the comma given as a raw token). -/
theorem C4_parsePrototype_witness :
    ParsePrototype (mkSt [Tok.ident "g", Tok.ch '(', Tok.ident "x",
        Tok.ident "y", Tok.ch ')'] defaultTable) =
      Except.ok (⟨"g", ["x", "y"]⟩, mkSt [] defaultTable) ∧
    ParsePrototype (mkSt [Tok.ident "g", Tok.ch '(', Tok.ident "x",
        Tok.ch ',', Tok.ident "y", Tok.ch ')'] defaultTable) =
      Except.error "Expected ')' in prototype" ∧
    ParsePrototype (mkSt [Tok.ch '('] defaultTable) =
      Except.error "Expected function name in prototype" :=
  ⟨C4_parsePrototype.1 "g" ["x", "y"] [] defaultTable,
   C4_parsePrototype.2.1 "g" ["x"] (Tok.ch ',')
     [Tok.ident "y", Tok.ch ')'] defaultTable
     (fun s2 h => Tok.noConfusion h) (by decide),
   C4_parsePrototype.2.2.1 (mkSt [Tok.ch '('] defaultTable)
     (fun s2 h => Tok.noConfusion h)⟩

/-! ## C5: identifier expressions — variable references and calls -/

/-- C5: after the identifier, no `'('` means a variable reference; a `'('`
opens a comma-separated argument list of full expressions ended by `')'`
(possibly empty), built in source order (`ArgsR` lists the arguments as
rendered left to right); a token that is neither `','` nor `')'` after an
argument fails with "expected ')' or ',' in argument list"; and
`"foo(1, 2+3)"` parses to the call `foo(1, 2 + 3)`. -/
theorem C5_parseIdentifierExpr :
    (∀ (s : String) (f : Nat) (st : PSt),
      (getNextToken st).curToken ≠ Tok.ch '(' →
      ParseIdentifierExpr s (f + 1) st =
        some (Except.ok (Expr.var s, getNextToken st))) ∧
    (∀ (s : String) (f : Nat) (st : PSt),
      (getNextToken st).curToken = Tok.ch '(' →
      (getNextToken (getNextToken st)).curToken = Tok.ch ')' →
      ParseIdentifierExpr s (f + 1) st =
        some (Except.ok (Expr.call s [],
          getNextToken (getNextToken (getNextToken st))))) ∧
    (∀ (f : Nat) (st : PSt) (args : List Expr) (arg : Expr) (st1 : PSt),
      ParseExpression f st = some (Except.ok (arg, st1)) →
      st1.curToken ≠ Tok.ch ')' → st1.curToken ≠ Tok.ch ',' →
      ParseArgsLoop (f + 1) args st =
        some (Except.error "expected ')' or ',' in argument list")) ∧
    (∀ (s : String) (es : List Expr) (ats : List Tok)
        (tb : List (Char × Int)), ArgsR es ats → EffD tb →
      ∃ tb2, ParseExpressionRun (mkSt (Tok.ident s :: Tok.ch '(' ::
          (ats ++ [Tok.ch ')'])) tb) =
        Except.ok (Expr.call s es, ⟨Tok.eof, [], tb2⟩) ∧ EffD tb2) ∧
    ParseExpressionRun (parseState "foo(1, 2+3)" defaultTable) =
      Except.ok (Expr.call "foo" [Expr.num "1",
          Expr.binop '+' (Expr.num "2") (Expr.num "3")],
        ⟨Tok.eof, [], [(')', 0), ('*', 40), ('+', 20), (',', 0),
          ('-', 20), ('<', 10)]⟩) := by
  refine ⟨?_, ?_, ?_, ?_, rfl⟩
  · intro s f st h
    rw [ParseIdentifierExpr, if_pos h]
  · intro s f st h1 h2
    rw [ParseIdentifierExpr, if_neg (by simp [h1]), if_pos h2]
  · intro f st args arg st1 hE h1 h2
    rw [ParseArgsLoop, hE]
    show (if st1.curToken = Tok.ch ')' then
        some (Except.ok (args ++ [arg], st1))
      else if st1.curToken ≠ Tok.ch ',' then
        some (Except.error "expected ')' or ',' in argument list")
      else ParseArgsLoop f (args ++ [arg]) (getNextToken st1)) = _
    rw [if_neg h1, if_pos h2]
  · intro s es ats tb ha htb
    exact renders_run (Expr.call s es)
      (Tok.ident s :: Tok.ch '(' :: (ats ++ [Tok.ch ')'])) tb
      (Renders.prim 0 _ _ (PrimR.call s es ats ha)) htb

/-- The general conjuncts of the statement above at one-token streams:
`x` alone is a variable reference, `x()` an empty call, `x(1 1` hits the
malformed-list diagnostic, and `x(1)` is a one-argument call. -/
theorem C5_parseIdentifierExpr_witness :
    ParseIdentifierExpr "x" 3 (mkSt [Tok.ident "x"] defaultTable) =
      some (Except.ok (Expr.var "x", ⟨Tok.eof, [], defaultTable⟩)) ∧
    ParseIdentifierExpr "x" 3 (mkSt [Tok.ident "x", Tok.ch '(',
        Tok.ch ')'] defaultTable) =
      some (Except.ok (Expr.call "x" [], ⟨Tok.eof, [], defaultTable⟩)) ∧
    ParseArgsLoop 9 [] (mkSt [Tok.num "1", Tok.num "1"] defaultTable) =
      some (Except.error "expected ')' or ',' in argument list") ∧
    ∃ tb2, ParseExpressionRun (mkSt (Tok.ident "x" :: Tok.ch '(' ::
        ([Tok.num "1"] ++ [Tok.ch ')'])) defaultTable) =
      Except.ok (Expr.call "x" [Expr.num "1"], ⟨Tok.eof, [], tb2⟩) ∧
      EffD tb2 := by
  refine ⟨?_, ?_, ?_, ?_⟩
  · exact C5_parseIdentifierExpr.1 "x" 2
      (mkSt [Tok.ident "x"] defaultTable) (by decide)
  · exact C5_parseIdentifierExpr.2.1 "x" 2
      (mkSt [Tok.ident "x", Tok.ch '(', Tok.ch ')'] defaultTable)
      (by decide) (by decide)
  · exact C5_parseIdentifierExpr.2.2.1 8
      (mkSt [Tok.num "1", Tok.num "1"] defaultTable) [] (Expr.num "1")
      (mkSt [Tok.num "1"] defaultTable) rfl (by decide) (by decide)
  · exact C5_parseIdentifierExpr.2.2.2.1 "x" [Expr.num "1"]
      [Tok.num "1"] defaultTable
      (ArgsR.one (Expr.num "1") [Tok.num "1"]
        (Renders.prim 0 _ _ (PrimR.num "1")))
      EffD_defaultTable

/-! ## C6: failures propagate immediately -/

/-- C6: a failing sub-parse makes every enclosing parse function fail with
the same diagnostic, at once — each conjunct below is one enclosing
call site forwarding the child's error unchanged (the result type carries
either an AST or a diagnostic, never both, so no partial AST escapes);
and the unterminated `"(1 + 2"` fails with "expected ')'". -/
theorem C6_error_propagation :
    (∀ (f : Nat) (st : PSt) (msg : String),
      ParsePrimary f st = some (Except.error msg) →
      ParseExpression (f + 1) st = some (Except.error msg)) ∧
    (∀ (f : Nat) (st : PSt) (msg : String),
      ParseExpression f (getNextToken st) = some (Except.error msg) →
      ParseParenExpr (f + 1) st = some (Except.error msg)) ∧
    (∀ (f : Nat) (st : PSt) (args : List Expr) (msg : String),
      ParseExpression f st = some (Except.error msg) →
      ParseArgsLoop (f + 1) args st = some (Except.error msg)) ∧
    (∀ (s : String) (f : Nat) (st : PSt) (msg : String),
      (getNextToken st).curToken = Tok.ch '(' →
      (getNextToken (getNextToken st)).curToken ≠ Tok.ch ')' →
      ParseArgsLoop f [] (getNextToken (getNextToken st)) =
        some (Except.error msg) →
      ParseIdentifierExpr s (f + 1) st = some (Except.error msg)) ∧
    (∀ (f : Nat) (q : Int) (lhs : Expr) (st : PSt) (msg : String),
      ¬ (GetTokenPrecedence st).1 < q →
      ParsePrimary f (getNextToken (GetTokenPrecedence st).2) =
        some (Except.error msg) →
      ParseBinOpRHS (f + 1) q lhs st = some (Except.error msg)) ∧
    (∀ (f : Nat) (st : PSt) (msg : String),
      ParseExpression f st = some (Except.error msg) →
      ParseTopLevelExpr f st = some (Except.error msg)) ∧
    ParseExpressionRun (parseState "(1 + 2" defaultTable) =
      Except.error "expected ')'" := by
  refine ⟨?_, ?_, ?_, ?_, ?_, ?_, rfl⟩
  · intro f st msg h
    rw [ParseExpression, h]
  · intro f st msg h
    rw [ParseParenExpr, h]
  · intro f st args msg h
    rw [ParseArgsLoop, h]
  · intro s f st msg h1 h2 h3
    rw [ParseIdentifierExpr, if_neg (by simp [h1]), if_neg h2, h3]
  · intro f q lhs st msg h1 h2
    rw [ParseBinOpRHS, if_neg h1, h2]
  · intro f st msg h
    rw [ParseTopLevelExpr, h]

/-- The propagation conjuncts at a concrete failing child: `')'` starts no
primary, and its diagnostic surfaces unchanged through each enclosing
function. -/
theorem C6_error_propagation_witness :
    ParseExpression 6 (mkSt [Tok.ch ')'] defaultTable) =
      some (Except.error "unknown token when expecting an expression") ∧
    ParseParenExpr 7 (mkSt [Tok.ch '(', Tok.ch ')'] defaultTable) =
      some (Except.error "unknown token when expecting an expression") ∧
    ParseArgsLoop 7 [] (mkSt [Tok.ch ')'] defaultTable) =
      some (Except.error "unknown token when expecting an expression") ∧
    ParseTopLevelExpr 6 (mkSt [Tok.ch ')'] defaultTable) =
      some (Except.error "unknown token when expecting an expression") :=
  ⟨C6_error_propagation.1 5 (mkSt [Tok.ch ')'] defaultTable) _ rfl,
   C6_error_propagation.2.1 6 (mkSt [Tok.ch '(', Tok.ch ')'] defaultTable)
     _ rfl,
   C6_error_propagation.2.2.1 6 (mkSt [Tok.ch ')'] defaultTable) [] _ rfl,
   C6_error_propagation.2.2.2.2.2.1 6 (mkSt [Tok.ch ')'] defaultTable)
     _ rfl⟩

/-! ## C7: the lexer at end of input -/

theorem getToken_eof_none (ins : List Char) :
    getToken ⟨none, ins⟩ = (Tok.eof, ⟨none, ins⟩) := rfl

/-- C7: whenever `getToken` reports end of input it has only observed the
end marker (the look-ahead holds `EOF`, nothing was consumed), and from
such a state every further call returns `eof` again with the state
unchanged — reporting end of input is idempotent. -/
theorem C7_lexer_eof_idempotent :
    (∀ ins : List Char, getToken ⟨none, ins⟩ = (Tok.eof, ⟨none, ins⟩)) ∧
    (∀ (st : LexState) (t : Tok) (st2 : LexState), getToken st = (t, st2) →
      t = Tok.eof → st2.lastChar = none ∧ getToken st2 = (Tok.eof, st2)) := by
  constructor
  · exact getToken_eof_none
  · intro st t st2 h ht
    subst ht
    have h1 : (getTokenF (lexMu st + 1) st).1 = Tok.eof := by
      rw [show getTokenF (lexMu st + 1) st = (Tok.eof, st2) from h]
    have hlc := getTokenF_eof_lastChar (lexMu st + 1) st h1
    rw [show getTokenF (lexMu st + 1) st = (Tok.eof, st2) from h] at hlc
    cases st2 with
    | mk lc ins =>
      replace hlc : lc = none := hlc
      subst hlc
      exact ⟨rfl, getToken_eof_none ins⟩

/-- The statement above after lexing the one-character input `"1"` to
exhaustion: the second call already reports `eof`, and the third does too,
leaving the state untouched. -/
theorem C7_lexer_eof_idempotent_witness :
    (⟨none, []⟩ : LexState).lastChar = none ∧
      getToken ⟨none, []⟩ = (Tok.eof, ⟨none, []⟩) :=
  C7_lexer_eof_idempotent.2 ⟨none, []⟩ Tok.eof ⟨none, []⟩ rfl rfl

/-! ## C8: the anonymous top-level wrapper -/

/-- C8: whenever the input parses as an expression, `ParseTopLevelExpr`
returns a function whose prototype is the reserved name `"__anon_expr"`
with an empty parameter list and whose body is exactly the parsed
expression; in particular `"40"` yields that wrapper around the literal
`40`. -/
theorem C8_parseTopLevelExpr_anon :
    (∀ (f : Nat) (st : PSt) (e : Expr) (st1 : PSt),
      ParseExpression f st = some (Except.ok (e, st1)) →
      ParseTopLevelExpr f st =
        some (Except.ok (⟨⟨"__anon_expr", []⟩, e⟩, st1))) ∧
    ParseTopLevelExprRun (parseState "40" defaultTable) =
      Except.ok (⟨⟨"__anon_expr", []⟩, Expr.num "40"⟩,
        ⟨Tok.eof, [], defaultTable⟩) := by
  constructor
  · intro f st e st1 h
    rw [ParseTopLevelExpr, h]
  · rfl

/-- The general conjunct of the statement above at the one-token
expression `7`. -/
theorem C8_parseTopLevelExpr_anon_witness :
    ParseTopLevelExpr 9 (mkSt [Tok.num "7"] defaultTable) =
      some (Except.ok (⟨⟨"__anon_expr", []⟩, Expr.num "7"⟩,
        ⟨Tok.eof, [], defaultTable⟩)) :=
  C8_parseTopLevelExpr_anon.1 9 (mkSt [Tok.num "7"] defaultTable)
    (Expr.num "7") ⟨Tok.eof, [], defaultTable⟩ rfl

/-! ## C9: every parse terminates -/

/-- C9: with fuel linear in the number of pending tokens,
`ParseExpression` and `ParseBinOpRHS` (for any minimum precedence the
program can pass, which is never negative) always deliver an answer — the
fuel bound never runs out, because more fuel never changes a delivered
answer and every successful `ParseExpression` consumes at least one
token. -/
theorem C9_parse_terminates :
    (∀ st : PSt, (ParseExpression (4 * muP st + 5) st).isSome = true) ∧
    (∀ (st : PSt) (q : Int) (lhs : Expr), 0 ≤ q →
      (ParseBinOpRHS (4 * muP st + 5) q lhs st).isSome = true) ∧
    (∀ (f f2 : Nat) (st : PSt) (r : Except String (Expr × PSt)), f ≤ f2 →
      ParseExpression f st = some r → ParseExpression f2 st = some r) ∧
    (∀ (f : Nat) (st : PSt) (e : Expr) (st1 : PSt),
      ParseExpression f st = some (Except.ok (e, st1)) →
      muP st1 < muP st) := by
  refine ⟨?_, ?_, ?_, ?_⟩
  · intro st
    exact (Parse_fuel (4 * muP st + 5) st 0 (Expr.num "") "" []).1 (by omega)
  · intro st q lhs hq
    exact (Parse_fuel (4 * muP st + 5) st q lhs "" []).2.2.2.2.2 hq (by omega)
  · intro f f2 st r hle h
    exact (Parse_mono f f2 hle st 0 (Expr.num "") "" []).1 r h
  · intro f st e st1 h
    exact (Parse_consume f st 0 (Expr.num "") "" []).1 e st1 h

/-- The conjuncts of the statement above at a concrete two-token
expression. -/
theorem C9_parse_terminates_witness :
    (ParseBinOpRHS (4 * muP (mkSt [Tok.num "2"] defaultTable) + 5) 0
      (Expr.num "1") (mkSt [Tok.num "2"] defaultTable)).isSome = true ∧
    ParseExpression 9 (mkSt [Tok.num "2"] defaultTable) =
      some (Except.ok (Expr.num "2", ⟨Tok.eof, [], defaultTable⟩)) ∧
    muP (⟨Tok.eof, [], defaultTable⟩ : PSt) <
      muP (mkSt [Tok.num "2"] defaultTable) :=
  ⟨C9_parse_terminates.2.1 (mkSt [Tok.num "2"] defaultTable) 0
     (Expr.num "1") (by omega),
   C9_parse_terminates.2.2.1 5 9 (mkSt [Tok.num "2"] defaultTable)
     (Except.ok (Expr.num "2", ⟨Tok.eof, [], defaultTable⟩))
     (by omega) rfl,
   C9_parse_terminates.2.2.2 5 (mkSt [Tok.num "2"] defaultTable)
     (Expr.num "2") ⟨Tok.eof, [], defaultTable⟩ rfl⟩

/-! ## C10: parentheses leave no trace -/

/-- C10: `ParsePrimary` at `'('` defers to `ParseParenExpr` outright;
`ParseParenExpr` returns the inner expression's AST node identically
(no wrapper), eating the `')'`, fails when the `')'` is missing, and
forwards an inner failure; so a parenthesised rendering parses exactly
when the bare rendering does, to the same AST. -/
theorem C10_paren_transparent :
    (∀ (f : Nat) (st : PSt), st.curToken = Tok.ch '(' →
      ParsePrimary (f + 1) st = ParseParenExpr f st) ∧
    (∀ (f : Nat) (st : PSt) (e : Expr) (st1 : PSt),
      ParseExpression f (getNextToken st) = some (Except.ok (e, st1)) →
      st1.curToken = Tok.ch ')' →
      ParseParenExpr (f + 1) st =
        some (Except.ok (e, getNextToken st1))) ∧
    (∀ (f : Nat) (st : PSt) (e : Expr) (st1 : PSt),
      ParseExpression f (getNextToken st) = some (Except.ok (e, st1)) →
      st1.curToken ≠ Tok.ch ')' →
      ParseParenExpr (f + 1) st = some (Except.error "expected ')'")) ∧
    (∀ (e : Expr) (ts : List Tok) (tb : List (Char × Int)),
      Renders 0 e ts → EffD tb →
      (∃ tb2, EvalP (mkSt (Tok.ch '(' :: (ts ++ [Tok.ch ')'])) tb)
        (Except.ok (e, ⟨Tok.eof, [], tb2⟩))) ∧
      (∃ tb3, ParseExpressionRun (mkSt ts tb) =
        Except.ok (e, ⟨Tok.eof, [], tb3⟩))) := by
  refine ⟨?_, ?_, ?_, ?_⟩
  · intro f st h
    rw [ParsePrimary, h]
    show (if ('(' : Char) = '(' then ParseParenExpr f st
      else some (Except.error
        "unknown token when expecting an expression")) = ParseParenExpr f st
    rw [if_pos rfl]
  · intro f st e st1 h h2
    rw [ParseParenExpr, h]
    show (if st1.curToken = Tok.ch ')' then
        some (Except.ok (e, getNextToken st1))
      else some (Except.error "expected ')'")) = _
    rw [if_pos h2]
  · intro f st e st1 h h2
    rw [ParseParenExpr, h]
    show (if st1.curToken = Tok.ch ')' then
        some (Except.ok (e, getNextToken st1))
      else some (Except.error "expected ')'")) = _
    rw [if_neg h2]
  · intro e ts tb hr htb
    constructor
    · obtain ⟨tb2, hP, _⟩ := (renders_correct
          (Tok.ch '(' :: (ts ++ [Tok.ch ')'])).length).1
        (Tok.ch '(' :: (ts ++ [Tok.ch ')'])) (le_refl _) e
        (PrimR.paren e ts hr) [] tb htb trivial
      rw [List.append_nil] at hP
      exact ⟨tb2, hP⟩
    · obtain ⟨tb3, hE, _⟩ := renders_run e ts tb hr htb
      exact ⟨tb3, hE⟩

/-- The conjuncts of the statement above at the parenthesised literal
`(1)`. -/
theorem C10_paren_transparent_witness :
    ParsePrimary 6 (mkSt [Tok.ch '(', Tok.num "1", Tok.ch ')']
        defaultTable) =
      ParseParenExpr 5 (mkSt [Tok.ch '(', Tok.num "1", Tok.ch ')']
        defaultTable) ∧
    ParseParenExpr 6 (mkSt [Tok.ch '(', Tok.num "1", Tok.ch ')']
        defaultTable) =
      some (Except.ok (Expr.num "1", getNextToken (⟨Tok.ch ')', [],
        [(')', 0), ('*', 40), ('+', 20), ('-', 20), ('<', 10)]⟩ : PSt))) ∧
    (∃ tb2, EvalP (mkSt (Tok.ch '(' :: ([Tok.num "1"] ++ [Tok.ch ')']))
        defaultTable) (Except.ok (Expr.num "1", ⟨Tok.eof, [], tb2⟩))) ∧
    (∃ tb3, ParseExpressionRun (mkSt [Tok.num "1"] defaultTable) =
      Except.ok (Expr.num "1", ⟨Tok.eof, [], tb3⟩)) := by
  refine ⟨?_, ?_, ?_⟩
  · exact C10_paren_transparent.1 5
      (mkSt [Tok.ch '(', Tok.num "1", Tok.ch ')'] defaultTable) rfl
  · exact C10_paren_transparent.2.1 5
      (mkSt [Tok.ch '(', Tok.num "1", Tok.ch ')'] defaultTable)
      (Expr.num "1") (⟨Tok.ch ')', [],
        [(')', 0), ('*', 40), ('+', 20), ('-', 20), ('<', 10)]⟩ : PSt)
      rfl rfl
  · exact C10_paren_transparent.2.2.2 (Expr.num "1") [Tok.num "1"]
      defaultTable (Renders.prim 0 _ _ (PrimR.num "1")) EffD_defaultTable

end Kaleidoscope
